import Mathlib

/-!
Verification of the `jones` hierarchical configuration service
(`src/jones/jones.py`) against its natural-language specification.

The development shallowly embeds the program: the versioned tree store
(ZooKeeper, an external collaborator specified in §6 of the design) is a
finite map from path strings to versioned nodes; store payloads are kept
as decoded JSON values (`json.dumps`/`json.loads` are mutually inverse),
except for the `ZNodeMap` legacy-format analysis, which is modelled at the
raw-string level in the `NM` namespace because the legacy/structured
distinction lives in the bytes.  Stateful Python code becomes explicit
state passing: each operation takes a `Store` and returns
`Except JErr α × Store`, where an error result carries the store as
mutated so far (a raised Python exception does not roll back prior
writes).
-/

/-! ## Character-list utilities mirroring Python string primitives -/

/-- Python `s.split(sep)` for a one-character separator, on char lists:
`splitChar '/' "a//b" = ["a", "", "b"]`, `splitChar '/' "" = [""]`. -/
def splitChar (sep : Char) : List Char → List (List Char)
  | [] => [[]]
  | c :: cs =>
    if c = sep then [] :: splitChar sep cs
    else
      match splitChar sep cs with
      | [] => [[c]]
      | h :: t => (c :: h) :: t

/-- Python `sep.join(parts)` for a one-character separator, on char lists. -/
def joinChar (sep : Char) : List (List Char) → List Char
  | [] => []
  | [l] => l
  | l :: ls => l ++ sep :: joinChar sep ls

/-- Python `s.split(sep)` for a multi-character separator `s0 :: srest`
(nonempty by construction), on char lists; structurally fuelled so that
concrete payloads evaluate by `rfl` (the fuel, initialised to the list
length by `pySplitOn`, never runs out because every step consumes at
least one character). -/
def pySplitOnGo (s0 : Char) (srest : List Char) : Nat → List Char → List (List Char)
  | _, [] => [[]]
  | 0, _ :: _ => [[]]
  | fuel + 1, c :: cs =>
    if (s0 :: srest).isPrefixOf (c :: cs) then
      [] :: pySplitOnGo s0 srest fuel ((c :: cs).drop (srest.length + 1))
    else
      match pySplitOnGo s0 srest fuel cs with
      | [] => [[c]]
      | h :: t => (c :: h) :: t

/-- Python `s.split(sep)`, entry point. -/
def pySplitOn (s0 : Char) (srest : List Char) (l : List Char) : List (List Char) :=
  pySplitOnGo s0 srest l.length l

/-- Python slice `s[n:]` (by characters). -/
def pyDrop (s : String) (n : Nat) : String := ⟨s.data.drop n⟩

/-- Python `s.split(c)` for a one-character separator, on strings. -/
def pySplit (s : String) (sep : Char) : List String :=
  (splitChar sep s.data).map (fun l => ⟨l⟩)

/-- Python `'/'.join(parts)` on strings. -/
def joinComponents (l : List String) : String :=
  ⟨joinChar '/' (l.map String.data)⟩

/-! ## JSON-compatible values -/

/-- JSON-compatible values as produced by `json.loads`: scalars, and
string-keyed objects (association lists in document order, as Python
dicts are).  Arrays do not occur in any configuration handled by the
claims and are omitted. -/
inductive JValue where
  | str : String → JValue
  | num : Int → JValue
  | bool : Bool → JValue
  | null : JValue
  | obj : List (String × JValue) → JValue

/-- Python `isinstance(conf, collections.Mapping)` on a JSON value. -/
def isMapping : JValue → Bool
  | .obj _ => true
  | _ => false

/-- Python `d[k] = v` on an association-list dict: replace in place if the
key is present, else append. -/
def setKey (m : List (String × JValue)) (k : String) (v : JValue) :
    List (String × JValue) :=
  if m.any (fun p => p.1 = k) then
    m.map (fun p => if p.1 = k then (k, v) else p)
  else m ++ [(k, v)]

/-- Python `d.update(m)`: set every entry of `m` into `d` in order. -/
def pyUpdate (d m : List (String × JValue)) : List (String × JValue) :=
  m.foldl (fun acc kv => setKey acc kv.1 kv.2) d

/-- Dictionary lookup (first entry with the key). -/
def lookupKey (m : List (String × JValue)) (k : String) : Option JValue :=
  (m.find? (fun p => p.1 = k)).map (fun p => p.2)

/-! ## Env (`class Env(unicode)` in the source) -/

/-- An environment path: the underlying unicode string of the Python
`Env` value.  The root environment is the empty string. -/
structure Env where
  name : String
deriving DecidableEq

/-- Construction of `Env(name)` (`Env.__new__`): `None` or an empty
string yields the root; a nonempty name must not start with `'/'`
(the constructor asserts), else construction fails. -/
def Env.make : Option String → Option Env
  | none => some ⟨""⟩
  | some s =>
    if s.data = [] then some ⟨""⟩
    else if s.data.head? = some '/' then none
    else some ⟨s⟩

/-- The distinguished root environment, `Env.Root = Env(None)`. -/
def Env.Root : Env := ⟨""⟩

/-- Property `is_root`: the stored `_empty` flag, true exactly for the
empty name. -/
def Env.isRoot (e : Env) : Bool := e.name = ""

/-- Property `components`: `['']` for root, else `self.split('/')`. -/
def Env.components (e : Env) : List String :=
  if e.isRoot then [""] else pySplit e.name '/'

/-! ## The versioned tree store (ZooKeeper, modelled from spec §6) -/

/-- One stored node: payload (`none` models the empty byte string a bare
`ensure_path` leaves behind, `some v` a `json.dumps` payload) and the
store's version counter for the node. -/
structure ZNode where
  data : Option JValue
  version : Nat

/-- The store: a finite map from absolute path strings to nodes,
represented as an association list. -/
abbrev Store := List (String × ZNode)

/-- Lookup of a path in the store. -/
def storeFind (s : Store) (p : String) : Option ZNode :=
  (s.find? (fun e => e.1 = p)).map (fun e => e.2)

/-- Errors surfaced by the service: the store errors of spec §6 plus the
Python-level failures (`ValueError` validation, `json`/`dict` decode
failures, `KeyError`, a failed `assert` in `Env.__new__`). -/
inductive JErr where
  | noNode | nodeExists | badVersion | notEmpty
  | validation | malformed | keyError | assertFail
deriving DecidableEq

/-- Segment decomposition of a path string. -/
def pathSegs (p : String) : List (List Char) := splitChar '/' p.data

/-- Parent path (all segments but the last); the ZooKeeper root is the
empty join, which always exists. -/
def parentPath (p : String) : String := ⟨joinChar '/' (pathSegs p).dropLast⟩

/-- Whether path `q` lies strictly inside the subtree rooted at `p`. -/
def isUnder (p q : String) : Bool := (p ++ "/").data.isPrefixOf q.data

/-- Whether `q` is an immediate child path of `p`. -/
def isChildOf (p q : String) : Bool :=
  isUnder p q && !((q.data.drop (p.length + 1)).contains '/')

/-- Whether some stored node is a child of `p`. -/
def hasChild (s : Store) (p : String) : Bool :=
  s.any (fun e => isChildOf p e.1)

/-- Modelled from the spec: `zk.get(path)`, failing `NoNode` when the
path is absent. -/
def zkGet (s : Store) (p : String) : Except JErr (Option JValue × Nat) :=
  match storeFind s p with
  | none => .error .noNode
  | some n => .ok (n.data, n.version)

/-- Modelled from the spec: `zk.set(path, data, version)`; `none` models
kazoo's default `version=-1` (unconditional).  Fails `NoNode` when the
path is absent, `BadVersion` when an expected version is supplied and
differs; on success replaces the payload and bumps the version. -/
def zkSet (s : Store) (p : String) (d : JValue) (ver : Option Nat) :
    Except JErr Unit × Store :=
  match storeFind s p with
  | none => (.error .noNode, s)
  | some n =>
    match ver with
    | some v =>
      if v = n.version then
        (.ok (), s.map (fun e => if e.1 = p then (p, ⟨some d, n.version + 1⟩) else e))
      else (.error .badVersion, s)
    | none =>
      (.ok (), s.map (fun e => if e.1 = p then (p, ⟨some d, n.version + 1⟩) else e))

/-- Modelled from the spec: `zk.create(path, data)` — fails `NodeExists`
when present, `NoNode` when the parent path is absent; creates at
version 0. -/
def zkCreate (s : Store) (p : String) (d : JValue) :
    Except JErr Unit × Store :=
  match storeFind s p with
  | some _ => (.error .nodeExists, s)
  | none =>
    let par := parentPath p
    if par.data = [] ∨ (storeFind s par).isSome then
      (.ok (), s ++ [(p, ⟨some d, 0⟩)])
    else (.error .noNode, s)

/-- Modelled from the spec: `zk.delete(path, version)` (non-recursive);
`none` models the unconditional default.  Fails `NoNode` when absent,
`BadVersion` on an expected-version mismatch, `NotEmpty` when the node
has children. -/
def zkDelete (s : Store) (p : String) (ver : Option Nat) :
    Except JErr Unit × Store :=
  match storeFind s p with
  | none => (.error .noNode, s)
  | some n =>
    match ver with
    | some v =>
      if v = n.version then
        if hasChild s p then (.error .notEmpty, s)
        else (.ok (), s.filter (fun e => ¬(e.1 = p)))
      else (.error .badVersion, s)
    | none =>
      if hasChild s p then (.error .notEmpty, s)
      else (.ok (), s.filter (fun e => ¬(e.1 = p)))

/-- The proper structural ancestors of `p` together with `p` itself,
shallowest first (the ZooKeeper root `/` is left implicit). -/
def pathChain (p : String) : List String :=
  (List.range (pathSegs p).length).filterMap (fun i =>
    if i = 0 then none else some ⟨joinChar '/' ((pathSegs p).take (i + 1))⟩)

/-- Modelled from the spec: `zk.ensure_path(path)` idempotently creates
`path` and all missing intermediate segments (empty payload, version 0). -/
def ensurePath (s : Store) (p : String) : Store :=
  (pathChain p).foldl
    (fun st q => if (storeFind st q).isSome then st else st ++ [(q, ⟨none, 0⟩)]) s

/-- Modelled from the spec: `zkutil.walk(zk, path)` (the helper module is
not under `src/`) enumerates the path itself followed by every stored
descendant path of `path` — spec §6: "sequence of all descendant paths
(including or excluding `path` itself, consistently)", and §4.3 requires
the walked environment itself to be included since `set_config`
recomputes the view of `env` and of every descendant. -/
def zkWalk (s : Store) (p : String) : List String :=
  p :: (s.filter (fun e => isUnder p e.1)).map (fun e => e.1)

/-! ## The Jones configuration service -/

/-- The service object: carries only the service name, from which all
store paths are derived exactly as in `Jones.__init__`. -/
structure Jones where
  service : String

/-- `self.root = "/services/%s" % service`. -/
def Jones.rootP (j : Jones) : String := "/services/" ++ j.service

/-- `self.conf_path = "%s/conf" % self.root`. -/
def Jones.confP (j : Jones) : String := j.rootP ++ "/conf"

/-- `self.view_path = "%s/views" % self.root`. -/
def Jones.viewP (j : Jones) : String := j.rootP ++ "/views"

/-- The `ZNodeMap` node path `"%s/nodemaps" % self.root`. -/
def Jones.nodemapP (j : Jones) : String := j.rootP ++ "/nodemaps"

/-- The store effect of constructing the service object:
`ZNodeMap.__init__` (invoked from `Jones.__init__`) runs
`zk.ensure_path("%s/nodemaps" % self.root)`. -/
def jonesInit (j : Jones) (s : Store) : Store := ensurePath s j.nodemapP

/-- `Jones._get_path_by_env(prefix, env)`: the prefix itself for root,
else `'/'.join((prefix, env))`. -/
def getPathByEnv (pre : String) (e : Env) : String :=
  if e.isRoot then pre else pre ++ "/" ++ e.name

/-- `self._get_env_path` (`_get_path_by_env` applied to `conf_path`). -/
def Jones.envPathOf (j : Jones) (e : Env) : String := getPathByEnv j.confP e

/-- `self._get_view_path` (`_get_path_by_env` applied to `view_path`). -/
def Jones.viewPathOf (j : Jones) (e : Env) : String := getPathByEnv j.viewP e

/-- `Jones._get(path)`: `zk.get` followed by `json.loads` (which raises
on the empty payload); returns `(version, data)`. -/
def jonesGet (s : Store) (p : String) : Except JErr (Nat × JValue) :=
  match storeFind s p with
  | none => .error .noNode
  | some n =>
    match n.data with
    | none => .error .malformed
    | some v => .ok (n.version, v)

/-- Fallible fold used to embed Python `for` loops whose body may raise. -/
def exFoldl (f : β → α → Except JErr β) : β → List α → Except JErr β
  | b, [] => .ok b
  | b, a :: as =>
    match f b a with
    | .error e => .error e
    | .ok b2 => exFoldl f b2 as

/-- Fallible map used to embed eager Python `map` over a fallible
function. -/
def exMapM (f : α → Except JErr β) : List α → Except JErr (List β)
  | [] => .ok []
  | a :: as =>
    match f a with
    | .error e => .error e
    | .ok b =>
      match exMapM f as with
      | .error e => .error e
      | .ok bs => .ok (b :: bs)

/-- The chain of joined component prefixes of `env` built in
`_flatten_from_root`: `['/'.join(nodes[:n]) for n in xrange(len(nodes)+1)]`. -/
def chainNames (e : Env) : List String :=
  (List.range (e.components.length + 1)).map
    (fun n => joinComponents (e.components.take n))

/-- The conf path of one chain element: `self._get_env_path(Env(name))` —
the `Env` constructor's assertion may fail. -/
def chainPath (j : Jones) (name : String) : Except JErr String :=
  match Env.make (some name) with
  | none => .error .assertFail
  | some e => .ok (j.envPathOf e)

/-- `Jones._flatten_from_root(env)`: build the root-to-env chain of conf
paths (eagerly, so a constructor assertion fires before any read), then
read each ConfigNode and accumulate `data.update(config)` in chain
order.  A payload that is not a mapping fails the `dict.update`. -/
def flattenFromRoot (j : Jones) (s : Store) (e : Env) :
    Except JErr (List (String × JValue)) :=
  match exMapM (chainPath j) (chainNames e) with
  | .error err => .error err
  | .ok paths =>
    exFoldl
      (fun data p =>
        match jonesGet s p with
        | .error err => .error err
        | .ok (_, .obj m) => .ok (pyUpdate data m)
        | .ok (_, _) => .error .malformed)
      [] paths

/-- `Jones._update_view(env)`: ensure the view destination exists when it
does not, recompute `_flatten_from_root(env)`, and write it with
`self._set(dest, ...)` — note: no expected version is supplied, so the
write is unconditional. -/
def updateView (j : Jones) (e : Env) (s : Store) : Except JErr Unit × Store :=
  let dest := j.viewPathOf e
  let s1 := if (storeFind s dest).isSome then s else ensurePath s dest
  match flattenFromRoot j s1 e with
  | .error err => (.error err, s1)
  | .ok m => zkSet s1 dest (.obj m) none

/-- `Jones.create_config(env, conf)`: validate the payload, ensure the
view subtree root path, create the ConfigNode, then update the view. -/
def createConfig (j : Jones) (e : Env) (conf : JValue) (s : Store) :
    Except JErr Unit × Store :=
  if ¬isMapping conf then (.error .validation, s)
  else
    let s1 := ensurePath s j.viewP
    match zkCreate s1 (j.envPathOf e) conf with
    | (.error err, s2) => (.error err, s2)
    | (.ok _, s2) => updateView j e s2

/-- The cascade loop of `set_config`: for each walked child path,
construct `Env(child[len(self.conf_path)+1:])` and update its view. -/
def updateViewsLoop (j : Jones) : List String → Store → Except JErr Unit × Store
  | [], s => (.ok (), s)
  | c :: cs, s =>
    match Env.make (some (pyDrop c (j.confP.length + 1))) with
    | none => (.error .assertFail, s)
    | some e =>
      match updateView j e s with
      | (.error err, s2) => (.error err, s2)
      | (.ok _, s2) => updateViewsLoop j cs s2

/-- `Jones.set_config(env, conf, version)`: validate, CAS-write the
ConfigNode at the expected version, then walk the conf subtree rooted at
`env` and update every walked environment's view. -/
def setConfig (j : Jones) (e : Env) (conf : JValue) (version : Nat)
    (s : Store) : Except JErr Unit × Store :=
  if ¬isMapping conf then (.error .validation, s)
  else
    match zkSet s (j.envPathOf e) conf (some version) with
    | (.error err, s1) => (.error err, s1)
    | (.ok _, s1) => updateViewsLoop j (zkWalk s1 (j.envPathOf e)) s1

/-- `Jones.delete_config(env, version)`: delete the ConfigNode at the
expected version, then delete the ViewNode unconditionally. -/
def deleteConfig (j : Jones) (e : Env) (version : Nat) (s : Store) :
    Except JErr Unit × Store :=
  match zkDelete s (j.envPathOf e) (some version) with
  | (.error err, s1) => (.error err, s1)
  | (.ok _, s1) => zkDelete s1 (j.viewPathOf e) none

/-- `Jones.get_config_by_env(env)`: the `(version, data)` of the raw
ConfigNode. -/
def getConfigByEnv (j : Jones) (e : Env) (s : Store) :
    Except JErr (Nat × JValue) :=
  jonesGet s (j.envPathOf e)

/-- `Jones.get_view_by_env(env)`: the data stored at the ViewNode. -/
def getViewByEnv (j : Jones) (e : Env) (s : Store) : Except JErr JValue :=
  match jonesGet s (j.viewPathOf e) with
  | .error err => .error err
  | .ok (_, d) => .ok d

/-! ## ZNodeMap at the raw-payload level (`NM`)

Claim C7 is about the bytes: `ZNodeMap._get` inspects the raw payload
(`if not len(data)`, `if self.OLD_SEPARATOR in data`), and `_set` always
emits `json.dumps`.  This namespace embeds that byte-level behaviour for
the flat string-to-string maps the node holds. -/

namespace NM

/-- `ZNodeMap.OLD_SEPARATOR = ' -> '` as a char list. -/
def OLD_SEP : List Char := [' ', '-', '>', ' ']

/-- Python `needle in hay` on char lists: some tail of `hay` starts with
`needle`. -/
def containsSeq (needle : List Char) : List Char → Bool
  | [] => needle.isEmpty
  | c :: cs => needle.isPrefixOf (c :: cs) || containsSeq needle cs

/-- Python `l.split(' -> ')` on a char list. -/
def splitSep (l : List Char) : List (List Char) :=
  pySplitOn ' ' ['-', '>', ' '] l

/-- Python association-list dict assignment for string values. -/
def setKeyS (m : List (String × String)) (k v : String) :
    List (String × String) :=
  if m.any (fun p => p.1 = k) then
    m.map (fun p => if p.1 = k then (k, v) else p)
  else m ++ [(k, v)]

/-- Python `dict(pairs)` over the split lines: every line must have split
into exactly two fields, later duplicates overriding earlier ones;
otherwise `dict` raises `ValueError`. -/
def dictOfSplits (acc : List (String × String)) :
    List (List (List Char)) → Option (List (String × String))
  | [] => some acc
  | [a, b] :: rest => dictOfSplits (setKeyS acc ⟨a⟩ ⟨b⟩) rest
  | _ :: _ => none

/-- The `_deserialize` helper of `ZNodeMap._get_old`: empty data is the
empty map, otherwise `dict(l.split(' -> ') for l in d.split('\n'))`. -/
def legacyDeserialize (d : String) : Option (List (String × String)) :=
  if d.data = [] then some []
  else dictOfSplits [] ((pySplit d '\n').map (fun l => splitSep l.data))

/-- Drop leading JSON whitespace. -/
def skipWs : List Char → List Char
  | [] => []
  | c :: cs => if c = ' ' then skipWs cs else c :: cs

/-- Scan a JSON string body up to the closing quote (escape sequences do
not occur in the payloads under study). -/
def scanStr : List Char → Option (List Char × List Char)
  | [] => none
  | c :: cs =>
    if c = '"' then some ([], cs)
    else if c = '\\' then none
    else (scanStr cs).map (fun r => (c :: r.1, r.2))

/-- Parse the entries of a JSON object of strings, after the opening
brace; fuelled by the remaining length. -/
def parseEntries : Nat → List Char → List (String × String) →
    Option (List (String × String) × List Char)
  | 0, _, _ => none
  | fuel + 1, cs, acc =>
    match cs with
    | '"' :: rest =>
      match scanStr rest with
      | none => none
      | some (key, rest1) =>
        match skipWs rest1 with
        | ':' :: rest2 =>
          match skipWs rest2 with
          | '"' :: rest3 =>
            match scanStr rest3 with
            | none => none
            | some (val, rest4) =>
              let acc1 := setKeyS acc ⟨key⟩ ⟨val⟩
              match skipWs rest4 with
              | ',' :: rest5 => parseEntries fuel (skipWs rest5) acc1
              | '}' :: rest5 => some (acc1, rest5)
              | _ => none
          | _ => none
        | _ => none
    | _ => none

/-- Structured decoding (`json.loads`) of a flat string-to-string object
payload; anything else is a decode failure. -/
def jsonParseStrMap (d : String) : Option (List (String × String)) :=
  match skipWs d.data with
  | '{' :: rest =>
    match skipWs rest with
    | '}' :: tail => if skipWs tail = [] then some [] else none
    | rest1 =>
      match parseEntries (rest1.length + 1) rest1 [] with
      | some (m, tail) => if skipWs tail = [] then some m else none
      | none => none
  | _ => none

/-- Structured encoding: `json.dumps` of a flat string map with the
default `", "` and `": "` separators. -/
def jsonDumpStrMap (m : List (String × String)) : String :=
  "\x7b" ++ String.intercalate ", "
    (m.map (fun kv => "\"" ++ kv.1 ++ "\": \"" ++ kv.2 ++ "\"")) ++ "\x7d"

/-- The decode policy of `ZNodeMap._get`: empty payload is the empty
map; a payload containing `' -> '` anywhere is handed to the legacy
parser (`_get_old` re-reads the same node and `_deserialize`s it);
anything else is `json.loads`. -/
def decode (d : String) : Option (List (String × String)) :=
  if d.data = [] then some []
  else if containsSeq OLD_SEP d.data then legacyDeserialize d
  else jsonParseStrMap d

/-- The claim's wording of the legacy shape: a nonempty payload of
newline-separated lines, each splitting on `' -> '` into exactly a name
and a destination. -/
def matchesLegacyPattern (d : String) : Bool :=
  !d.data.isEmpty &&
    (pySplit d '\n').all (fun l => (splitSep l.data).length = 2)

/-- The single `nodemaps` node as `ZNodeMap` sees it: raw payload plus
version. -/
structure Node where
  raw : String
  version : Nat

/-- `ZNodeMap.get_all()`: decode only; the store is not written. -/
def getAll (st : Node) : Option (List (String × String)) := decode st.raw

/-- `ZNodeMap.set(name, dest)`: read-modify-write; the written payload is
always the structured encoding. -/
def set (st : Node) (name dest : String) : Option Node :=
  (decode st.raw).map
    (fun m => ⟨jsonDumpStrMap (setKeyS m name dest), st.version + 1⟩)

/-- `ZNodeMap.delete(name)`: read-modify-write removing the key
(`KeyError` when absent); the written payload is always the structured
encoding. -/
def delete (st : Node) (name : String) : Option Node :=
  match decode st.raw with
  | none => none
  | some m =>
    if m.any (fun p => p.1 = name) then
      some ⟨jsonDumpStrMap (m.filter (fun p => ¬(p.1 = name))), st.version + 1⟩
    else none

end NM

mutual

/-- Model of `json.dumps` on decoded values, with the default `", "` and
`": "` separators (escape sequences do not occur in the payloads under
study). -/
def jsonDump : JValue → String
  | .str s => "\"" ++ s ++ "\""
  | .num n => toString n
  | .bool b => if b then "true" else "false"
  | .null => "null"
  | .obj m => "\x7b" ++ String.intercalate ", " (jsonDumpEntries m) ++ "\x7d"

/-- Serialization of the entries of an object, in document order. -/
def jsonDumpEntries : List (String × JValue) → List String
  | [] => []
  | (k, v) :: rest => ("\"" ++ k ++ "\": " ++ jsonDump v) :: jsonDumpEntries rest

end

/-! ## ZNodeMap over decoded payloads

The `nodemaps` node is read and written through `ZNodeMap`.  At this
level the store carries the decoded JSON value, whose raw bytes are its
`json.dumps` serialization (`jsonDump`); an empty payload (`none`)
decodes to the empty map exactly as `ZNodeMap._get` does on
`not len(data)`, and the `OLD_SEPARATOR in data` substring scan of
`_get` is performed on that serialization, routing to the legacy parser
of `_get_old` (namespace `NM`) whenever `' -> '` occurs anywhere in the
bytes. -/

/-- `ZNodeMap._get` on a decoded payload: empty bytes decode to the
empty map; bytes containing `' -> '` anywhere go to `_get_old`, whose
`_deserialize` result is a map of strings (a failing `dict()` raises);
otherwise the structured value must be the mapping itself. -/
def znmGet (s : Store) (p : String) :
    Except JErr (List (String × JValue) × Nat) :=
  match storeFind s p with
  | none => .error .noNode
  | some n =>
    match n.data with
    | none => .ok ([], n.version)
    | some v =>
      if NM.containsSeq NM.OLD_SEP (jsonDump v).data then
        match NM.legacyDeserialize (jsonDump v) with
        | some sm => .ok (sm.map (fun kv => (kv.1, JValue.str kv.2)), n.version)
        | none => .error .malformed
      else
        match v with
        | .obj m => .ok (m, n.version)
        | _ => .error .malformed

/-- `ZNodeMap.set(name, dest)`: read map and version, set the key, write
back (always in the structured format) at the expected version. -/
def znmSet (s : Store) (p : String) (name dest : String) :
    Except JErr Unit × Store :=
  match znmGet s p with
  | .error err => (.error err, s)
  | .ok (m, v) => zkSet s p (.obj (setKey m name (.str dest))) (some v)

/-- Python `==` between a decoded JSON value and a string: true exactly
for the equal string value. -/
def jeqStr : JValue → String → Bool
  | .str s, d => s = d
  | _, _ => false

/-- `Jones.assoc_host(hostname, env)`: record `hostname → views/<env>`
in the association map; no validation of either argument. -/
def assocHost (j : Jones) (hostname : String) (e : Env) (s : Store) :
    Except JErr Unit × Store :=
  znmSet s j.nodemapP hostname (j.viewPathOf e)

/-- `Jones.get_associations(env)`: `none` for root; otherwise the list
of hostnames whose destination equals `views/<env>`. -/
def getAssociations (j : Jones) (e : Env) (s : Store) :
    Except JErr (Option (List String)) :=
  if e.isRoot then .ok none
  else
    match znmGet s j.nodemapP with
    | .error err => .error err
    | .ok (m, _) =>
      .ok (some ((m.filter (fun kv => jeqStr kv.2 (j.viewPathOf e))).map
        (fun kv => kv.1)))

/-- The fixed service instance the theorems are stated over. -/
def jS : Jones := ⟨"s"⟩


/-! ## Spec-side notions used by the claim statements -/

/-- Fallible map over `Option`. -/
def optMapM (f : α → Option β) : List α → Option (List β)
  | [] => some []
  | a :: as =>
    match f a with
    | none => none
    | some b =>
      match optMapM f as with
      | none => none
      | some bs => some (b :: bs)

/-- The ConfigNode mapping stored for one ancestor-chain element:
`some` exactly when the element names a constructible `Env` whose
ConfigNode holds a mapping. -/
def chainConfFn (j : Jones) (s : Store) (n : String) :
    Option (List (String × JValue)) :=
  match Env.make (some n) with
  | none => none
  | some e2 =>
    match storeFind s (j.envPathOf e2) with
    | some nd =>
      match nd.data with
      | some (.obj m) => some m
      | _ => none
    | none => none

/-- The ConfigNode mappings along the ancestor chain of `e`, root
first. -/
def confChainData (j : Jones) (s : Store) (e : Env) :
    Option (List (List (String × JValue))) :=
  optMapM (chainConfFn j s) (chainNames e)

/-- The merge of the spec's §8 property: overlay the chain's mappings in
root-to-leaf order. -/
def overlay (ms : List (List (String × JValue))) : List (String × JValue) :=
  ms.foldl pyUpdate []

/-- Key resolution along the chain, deepest definition winning; `none`
when no chain element re-specifies the key. -/
def chainLookup : List (List (String × JValue)) → String → Option JValue
  | [], _ => none
  | m :: ms, k =>
    match chainLookup ms k with
    | some v => some v
    | none => lookupKey m k

/-- The end-to-end scenario of spec §8 (root, `prod`, `prod/us`), as the
store produced by the three `create_config` calls. -/
def demoStore : Store :=
  [("/services", ⟨none, 0⟩),
   ("/services/s", ⟨none, 0⟩),
   ("/services/s/views", ⟨some (.obj [("timeout", .num 30)]), 1⟩),
   ("/services/s/conf", ⟨some (.obj [("timeout", .num 30)]), 0⟩),
   ("/services/s/conf/prod", ⟨some (.obj [("timeout", .num 10), ("region", .str "na")]), 0⟩),
   ("/services/s/views/prod", ⟨some (.obj [("timeout", .num 10), ("region", .str "na")]), 1⟩),
   ("/services/s/conf/prod/us", ⟨some (.obj [("region", .str "us-east")]), 0⟩),
   ("/services/s/views/prod/us", ⟨some (.obj [("timeout", .num 10), ("region", .str "us-east")]), 1⟩)]

/-- A store in which the root ConfigNode exists and the root ViewNode has
been bumped to version 41 by some other writer. -/
def c3Store : Store :=
  [("/services/s/conf", ⟨some (.obj []), 0⟩),
   ("/services/s/views", ⟨some (.obj [("k", .str "old")]), 41⟩)]

/-- The demo scenario extended with the `nodemaps` association node that
`Jones.__init__` ensures, here after one earlier association write. -/
def demoStoreNM : Store :=
  demoStore ++
    [("/services/s/nodemaps",
      ⟨some (.obj [("h1", .str "/services/s/views/prod")]), 1⟩)]

/-- The ancestor-chain ConfigNode mappings of `prod/us` in the demo
scenario. -/
def c1Chain : List (List (String × JValue)) :=
  [[("timeout", .num 30)],
   [("timeout", .num 10), ("region", .str "na")],
   [("region", .str "us-east")]]

/-- Paths in the configuration subtree of the fixed service: everything
that starts with `/services/s/c`. -/
def confSide (q : String) : Prop :=
  ∃ tl, q.data = "/services/s/c".data ++ tl

/-- Paths in the view subtree of the fixed service: everything that
starts with `/services/s/v`. -/
def viewSide (q : String) : Prop :=
  ∃ tl, q.data = "/services/s/v".data ++ tl

/-! ## Helper lemmas -/

theorem splitChar_ne_nil (sep : Char) (cs : List Char) :
    splitChar sep cs ≠ [] := by
  induction cs with
  | nil => simp [splitChar]
  | cons c cs ih =>
    unfold splitChar
    by_cases h : c = sep
    · simp [h]
    · simp only [h, if_false]
      cases hs : splitChar sep cs with
      | nil => simp
      | cons a t => simp

theorem splitChar_sep_not_mem (sep : Char) (cs : List Char) :
    ∀ l ∈ splitChar sep cs, sep ∉ l := by
  induction cs with
  | nil =>
    intro l hl
    simp [splitChar] at hl
    simp [hl]
  | cons c cs ih =>
    intro l hl
    unfold splitChar at hl
    by_cases h : c = sep
    · simp only [h, if_true] at hl
      rcases List.mem_cons.mp hl with h1 | h1
      · simp [h1]
      · exact ih l h1
    · simp only [h, if_false] at hl
      cases hs : splitChar sep cs with
      | nil => exact absurd hs (splitChar_ne_nil sep cs)
      | cons a t =>
        rw [hs] at hl
        rcases List.mem_cons.mp hl with h1 | h1
        · subst h1
          intro hmem
          rcases List.mem_cons.mp hmem with h2 | h2
          · exact h h2.symm
          · exact ih a (hs ▸ List.mem_cons_self a t) h2
        · exact ih l (hs ▸ List.mem_cons_of_mem a h1)

theorem storeFind_cons (a : String) (b : ZNode) (s : Store) (q : String) :
    storeFind ((a, b) :: s) q = if a = q then some b else storeFind s q := by
  by_cases h : a = q <;> simp [storeFind, List.find?_cons, h]

theorem storeFind_append_single (s : Store) (r : String) (d : ZNode)
    (q : String) :
    storeFind (s ++ [(r, d)]) q =
      match storeFind s q with
      | some n => some n
      | none => if q = r then some d else none := by
  induction s with
  | nil =>
    simp only [List.nil_append, storeFind, List.find?]
    by_cases h : r = q
    · subst h; simp
    · simp [h, Ne.symm h]
  | cons e s ih =>
    obtain ⟨a, b⟩ := e
    rw [List.cons_append, storeFind_cons, storeFind_cons]
    by_cases h : a = q
    · simp [h]
    · simp only [h, if_false]
      exact ih

theorem storeFind_overwrite (s : Store) (p : String) (nd : ZNode)
    (q : String) :
    storeFind (s.map (fun e => if e.1 = p then (p, nd) else e)) q =
      if q = p then (storeFind s p).map (fun _ => nd) else storeFind s q := by
  induction s with
  | nil => by_cases h : q = p <;> simp [storeFind, h]
  | cons e s ih =>
    obtain ⟨a, b⟩ := e
    simp only [List.map_cons]
    by_cases ha : a = p <;> by_cases hq : q = p <;> by_cases haq : a = q <;>
      simp_all [storeFind_cons]

theorem storeFind_erase (s : Store) (p : String) (q : String) :
    storeFind (s.filter (fun e => ¬(e.1 = p))) q =
      if q = p then none else storeFind s q := by
  induction s with
  | nil => by_cases h : q = p <;> simp [storeFind, h]
  | cons e s ih =>
    obtain ⟨a, b⟩ := e
    rw [List.filter_cons]
    by_cases ha : a = p <;> by_cases hq : q = p <;> by_cases haq : a = q <;>
      simp_all [storeFind_cons]

theorem ensure_foldl_find (L : List String) (s : Store) (q : String) :
    storeFind
      (L.foldl
        (fun st r => if (storeFind st r).isSome then st else st ++ [(r, ⟨none, 0⟩)]) s) q =
      match storeFind s q with
      | some n => some n
      | none => if q ∈ L then some ⟨none, 0⟩ else none := by
  induction L generalizing s with
  | nil => cases h : storeFind s q <;> simp [h]
  | cons r L ih =>
    simp only [List.foldl_cons]
    by_cases hr : (storeFind s r).isSome
    · rw [if_pos hr, ih]
      cases h : storeFind s q with
      | some n => simp
      | none =>
        by_cases hq : q = r
        · subst hq
          rw [h] at hr; simp at hr
        · simp [List.mem_cons, hq]
    · rw [if_neg hr, ih]
      cases h : storeFind s q with
      | some n =>
        rw [storeFind_append_single, h]
      | none =>
        rw [storeFind_append_single, h]
        by_cases hq : q = r
        · simp [hq]
        · simp [List.mem_cons, hq]

theorem storeFind_ensurePath (s : Store) (p : String) (q : String) :
    storeFind (ensurePath s p) q =
      match storeFind s q with
      | some n => some n
      | none => if q ∈ pathChain p then some ⟨none, 0⟩ else none :=
  ensure_foldl_find (pathChain p) s q

theorem exFoldl_error_class (f : β → α → Except JErr β) (P : JErr → Prop)
    (hf : ∀ b a err, f b a = .error err → P err) :
    ∀ (L : List α) (b : β) (err : JErr), exFoldl f b L = .error err → P err := by
  intro L
  induction L with
  | nil => intro b err h; simp [exFoldl] at h
  | cons a as ih =>
    intro b err h
    unfold exFoldl at h
    cases hf1 : f b a with
    | error e1 =>
      rw [hf1] at h
      cases h
      exact hf b a err hf1
    | ok b2 =>
      rw [hf1] at h
      exact ih b2 err h

theorem exMapM_error_class (f : α → Except JErr β) (P : JErr → Prop)
    (hf : ∀ a err, f a = .error err → P err) :
    ∀ (L : List α) (err : JErr), exMapM f L = .error err → P err := by
  intro L
  induction L with
  | nil => intro err h; simp [exMapM] at h
  | cons a as ih =>
    intro err h
    unfold exMapM at h
    cases hf1 : f a with
    | error e1 =>
      rw [hf1] at h
      cases h
      exact hf a err hf1
    | ok b =>
      rw [hf1] at h
      cases hrest : exMapM f as with
      | error e2 =>
        rw [hrest] at h
        cases h
        exact ih err hrest
      | ok bs => rw [hrest] at h; cases h

theorem flatten_error_class (j : Jones) (s : Store) (e : Env) (err : JErr)
    (h : flattenFromRoot j s e = .error err) :
    err = .assertFail ∨ err = .noNode ∨ err = .malformed := by
  unfold flattenFromRoot at h
  cases hm : exMapM (chainPath j) (chainNames e) with
  | error e1 =>
    rw [hm] at h
    cases h
    exact Or.inl (exMapM_error_class (chainPath j) (fun x => x = .assertFail)
      (by
        intro a err2 ha
        unfold chainPath at ha
        cases hmk : Env.make (some a) with
        | none => rw [hmk] at ha; cases ha; rfl
        | some e2 => rw [hmk] at ha; cases ha)
      (chainNames e) _ hm)
  | ok paths =>
    rw [hm] at h
    refine Or.inr (exFoldl_error_class _ (fun x => x = .noNode ∨ x = .malformed) ?_ paths [] err h)
    intro b a err2 hba
    cases hg : jonesGet s a with
    | error e2 =>
      rw [hg] at hba
      cases hba
      unfold jonesGet at hg
      cases hf : storeFind s a with
      | none => simp only [hf] at hg; cases hg; exact Or.inl rfl
      | some nd =>
        simp only [hf] at hg
        cases hd : nd.data with
        | none => simp only [hd] at hg; cases hg; exact Or.inr rfl
        | some v => simp only [hd] at hg; cases hg
    | ok pr =>
      rw [hg] at hba
      obtain ⟨v1, v2⟩ := pr
      cases v2 <;> simp_all

theorem updateView_ne_badVersion (j : Jones) (e : Env) (s : Store) :
    (updateView j e s).1 ≠ Except.error JErr.badVersion := by
  intro hcon
  simp only [updateView] at hcon
  generalize (if (storeFind s (j.viewPathOf e)).isSome then s
      else ensurePath s (j.viewPathOf e)) = s1 at hcon
  cases hf : flattenFromRoot j s1 e with
  | error err =>
    rw [hf] at hcon
    cases hcon
    rcases flatten_error_class j s1 e _ hf with h | h | h <;> cases h
  | ok m =>
    rw [hf] at hcon
    unfold zkSet at hcon
    cases hsf : storeFind s1 (j.viewPathOf e) with
    | none => simp only [hsf] at hcon; cases hcon
    | some n => simp only [hsf] at hcon; cases hcon

theorem zkSet_error_snd (s : Store) (p : String) (d : JValue)
    (ver : Option Nat) (err : JErr)
    (h : (zkSet s p d ver).1 = .error err) :
    zkSet s p d ver = (.error err, s) := by
  unfold zkSet at h ⊢
  cases hf : storeFind s p with
  | none => simp only [hf] at h ⊢; cases h; rfl
  | some n =>
    simp only [hf] at h ⊢
    cases ver with
    | some v =>
      dsimp only at h ⊢
      by_cases hv : v = n.version
      · rw [if_pos hv] at h; cases h
      · rw [if_neg hv] at h ⊢; cases h; rfl
    | none => dsimp only at h; cases h

theorem zkDelete_error_snd (s : Store) (p : String) (ver : Option Nat)
    (err : JErr) (h : (zkDelete s p ver).1 = .error err) :
    zkDelete s p ver = (.error err, s) := by
  unfold zkDelete at h ⊢
  cases hf : storeFind s p with
  | none => simp only [hf] at h ⊢; cases h; rfl
  | some n =>
    simp only [hf] at h ⊢
    cases ver with
    | some v =>
      dsimp only at h ⊢
      by_cases hv : v = n.version
      · rw [if_pos hv] at h ⊢
        cases hc : hasChild s p with
        | true => simp only [hc] at h ⊢; cases h; rfl
        | false => simp only [hc] at h ⊢; cases h
      · rw [if_neg hv] at h ⊢; cases h; rfl
    | none =>
      dsimp only at h ⊢
      cases hc : hasChild s p with
      | true => simp only [hc] at h ⊢; cases h; rfl
      | false => simp only [hc] at h ⊢; cases h

theorem updateViewsLoop_ne_badVersion (j : Jones) (L : List String) (s : Store) :
    (updateViewsLoop j L s).1 ≠ Except.error JErr.badVersion := by
  induction L generalizing s with
  | nil => simp [updateViewsLoop]
  | cons c cs ih =>
    unfold updateViewsLoop
    cases _hmk : Env.make (some (pyDrop c (j.confP.length + 1))) with
    | none => simp
    | some e2 =>
      dsimp only
      rcases hu : updateView j e2 s with ⟨u1, u2⟩
      cases u1 with
      | error err =>
        dsimp only
        intro hcon
        cases hcon
        exact updateView_ne_badVersion j e2 s (by rw [hu])
      | ok _ =>
        dsimp only
        exact ih u2

/-! ## Claim C5 -/

/-- C5 counterexample: the claim "every element of the components
sequence is a non-empty string" fails at the distinguished root value,
whose components sequence is `['']`, the singleton empty string. -/
theorem C5_counterexample :
    Env.make none = some Env.Root ∧ "" ∈ Env.Root.components ∧
      ("" : String).data.length = 0 := by
  refine ⟨rfl, ?_, rfl⟩
  show "" ∈ [""]
  exact List.mem_singleton.mpr rfl

/-- C5 (amended): for every successfully constructed EnvPath, every
element of its components sequence contains no path separator; the
elements may however be empty — the root's components sequence is
`['']`. -/
theorem C5_components_separator_free (o : Option String) (e : Env)
    (_hmk : Env.make o = some e) :
    ∀ c ∈ e.components, '/' ∉ c.data := by
  intro c hc
  unfold Env.components at hc
  by_cases hr : e.isRoot
  · rw [if_pos hr] at hc
    rcases List.mem_singleton.mp hc with rfl
    simp
  · rw [if_neg hr] at hc
    unfold pySplit at hc
    rcases List.mem_map.mp hc with ⟨l, hl, rfl⟩
    exact splitChar_sep_not_mem '/' e.name.data l hl

/-- C5 witness: the amended statement evaluated at the concrete path
`"ab/cd"`. -/
theorem C5_witness :
    Env.make (some "ab/cd") = some ⟨"ab/cd"⟩ ∧
      ∀ c ∈ (Env.mk "ab/cd").components, '/' ∉ c.data :=
  ⟨by rfl, C5_components_separator_free (some "ab/cd") ⟨"ab/cd"⟩ (by rfl)⟩

/-! ## Claim C6 -/

/-- C6: for every `conf` that is not a mapping, `create_config` and
`set_config` raise the validation error before touching the store: the
result store is exactly the input store. -/
theorem C6_validation_fail_fast (j : Jones) (e : Env) (conf : JValue)
    (v : Nat) (s : Store) (h : isMapping conf = false) :
    createConfig j e conf s = (.error .validation, s) ∧
      setConfig j e conf v s = (.error .validation, s) := by
  constructor
  · unfold createConfig
    rw [h]
    simp
  · unfold setConfig
    rw [h]
    simp

/-- C6 witness: a string payload is rejected by both operations with the
store untouched. -/
theorem C6_witness :
    isMapping (JValue.str "x") = false ∧
      createConfig jS Env.Root (JValue.str "x") demoStore =
        (.error .validation, demoStore) ∧
      setConfig jS Env.Root (JValue.str "x") 7 demoStore =
        (.error .validation, demoStore) :=
  ⟨rfl,
   (C6_validation_fail_fast jS Env.Root (JValue.str "x") 7 demoStore rfl).1,
   (C6_validation_fail_fast jS Env.Root (JValue.str "x") 7 demoStore rfl).2⟩

/-! ## Claim C10 -/

/-- C10: `delete_config` deletes the ConfigNode before the ViewNode, so
when the config delete fails (missing node, version mismatch, or a
non-empty node), the whole call returns that error with the store — in
particular the ViewNode — completely untouched. -/
theorem C10_failed_config_delete_no_mutation (j : Jones) (e : Env)
    (v : Nat) (s : Store) (err : JErr)
    (h : (zkDelete s (j.envPathOf e) (some v)).1 = .error err) :
    deleteConfig j e v s = (.error err, s) := by
  unfold deleteConfig
  rw [zkDelete_error_snd _ _ _ _ h]

/-- C10 witness: deleting the root config of the demo store with a stale
version fails `VersionConflict` and modifies nothing. -/
theorem C10_witness :
    deleteConfig jS Env.Root 3 demoStore = (.error .badVersion, demoStore) :=
  C10_failed_config_delete_no_mutation jS Env.Root 3 demoStore .badVersion (by rfl)

/-! ## Claim C3 -/

/-- C3 counterexample: the cascade's view write is not a CAS.  Here the
root ViewNode carries version 41 (and, in the second store, version 7):
whatever version the node has, `_update_view` succeeds and overwrites
it, rather than validating an expected version token; no
`VersionConflict` is possible. -/
theorem C3_counterexample :
    updateView jS Env.Root c3Store =
      (.ok (), [("/services/s/conf", ⟨some (.obj []), 0⟩),
                ("/services/s/views", ⟨some (.obj []), 42⟩)]) ∧
    updateView jS Env.Root
      [("/services/s/conf", ⟨some (.obj []), 0⟩),
       ("/services/s/views", ⟨some (.obj [("k", .str "old")]), 7⟩)] =
      (.ok (), [("/services/s/conf", ⟨some (.obj []), 0⟩),
                ("/services/s/views", ⟨some (.obj []), 8⟩)]) :=
  ⟨by rfl, by rfl⟩

/-- C3 (amended): during the cascade each descendant ViewNode is written
unconditionally — `_update_view` supplies no expected version, so a view
write can never fail with `VersionConflict`; the only CAS in `set_config`
is the ConfigNode write, which happens before any view mutation, so a
`VersionConflict` out of `set_config` leaves the store unchanged. -/
theorem C3_view_writes_unconditional :
    (∀ (j : Jones) (e : Env) (s : Store),
        (updateView j e s).1 ≠ Except.error JErr.badVersion) ∧
    (∀ (j : Jones) (e : Env) (conf : JValue) (v : Nat) (s : Store),
        (setConfig j e conf v s).1 = Except.error JErr.badVersion →
          setConfig j e conf v s = (Except.error JErr.badVersion, s)) := by
  refine ⟨updateView_ne_badVersion, ?_⟩
  intro j e conf v s h
  unfold setConfig at h ⊢
  by_cases hm : isMapping conf
  · simp only [hm, not_true, if_false] at h ⊢
    rcases hzk : zkSet s (j.envPathOf e) conf (some v) with ⟨r1, s1⟩
    rw [hzk] at h
    cases r1 with
    | error err =>
      dsimp only at h ⊢
      cases h
      have h2 := zkSet_error_snd s (j.envPathOf e) conf (some v) .badVersion
        (by rw [hzk])
      rw [hzk] at h2
      cases h2
      rfl
    | ok u =>
      dsimp only at h
      exact absurd h (updateViewsLoop_ne_badVersion j _ s1)
  · simp only [hm, not_false_iff, if_true] at h
    cases h

/-- C3 witness for the amended CAS statement: a `set_config` against a
stale config version fails `VersionConflict` with the store unchanged. -/
theorem C3_witness :
    setConfig jS Env.Root (.obj []) 3 demoStore =
      (Except.error JErr.badVersion, demoStore) :=
  C3_view_writes_unconditional.2 jS Env.Root (.obj []) 3 demoStore (by rfl)

theorem storeFind_ensurePath_none (s : Store) (p q : String)
    (h : storeFind s q = none) :
    storeFind (ensurePath s p) q =
      if q ∈ pathChain p then some ⟨none, 0⟩ else none := by
  rw [storeFind_ensurePath, h]

theorem storeFind_ensurePath_some (s : Store) (p q : String) (n : ZNode)
    (h : storeFind s q = some n) :
    storeFind (ensurePath s p) q = some n := by
  rw [storeFind_ensurePath, h]

theorem flatten_root (j : Jones) (s : Store) (m : List (String × JValue))
    (ver : Nat) (h : jonesGet s j.confP = .ok (ver, .obj m)) :
    flattenFromRoot j s Env.Root = .ok (pyUpdate (pyUpdate [] m) m) := by
  unfold flattenFromRoot
  have hmapm : exMapM (chainPath j) (chainNames Env.Root) =
      .ok [j.confP, j.confP] := rfl
  rw [hmapm]
  unfold exFoldl
  rw [h]
  unfold exFoldl
  rw [h]
  unfold exFoldl
  rfl

theorem envPathOf_root (j : Jones) : j.envPathOf Env.Root = j.confP := rfl

theorem viewPathOf_root (j : Jones) : j.viewPathOf Env.Root = j.viewP := rfl

theorem createConfig_ok_step (j : Jones) (e : Env) (conf : JValue)
    (s s2 : Store) (hm : isMapping conf = true)
    (hcr : zkCreate (ensurePath s j.viewP) (j.envPathOf e) conf = (.ok (), s2)) :
    createConfig j e conf s = updateView j e s2 := by
  unfold createConfig
  rw [if_neg (by simp [hm])]
  dsimp only
  rw [hcr]

theorem createConfig_error_step (j : Jones) (e : Env) (conf : JValue)
    (s s2 : Store) (err : JErr) (hm : isMapping conf = true)
    (hcr : zkCreate (ensurePath s j.viewP) (j.envPathOf e) conf = (.error err, s2)) :
    createConfig j e conf s = (.error err, s2) := by
  unfold createConfig
  rw [if_neg (by simp [hm])]
  dsimp only
  rw [hcr]

theorem updateView_ok_step (j : Jones) (e : Env) (s : Store) (nv : ZNode)
    (m2 : List (String × JValue))
    (hsf : storeFind s (j.viewPathOf e) = some nv)
    (hfl : flattenFromRoot j s e = .ok m2) :
    updateView j e s =
      (.ok (), s.map (fun en => if en.1 = j.viewPathOf e
        then (j.viewPathOf e, ⟨some (.obj m2), nv.version + 1⟩) else en)) := by
  unfold updateView
  dsimp only
  rw [hsf]
  simp only [Option.isSome_some, if_true]
  rw [hfl]
  unfold zkSet
  rw [hsf]

/-! ## Claim C4 -/

/-- C4 counterexample: on a fresh store, `create_config('a', {})` fails
`NoNode` because the conf parent path `/services/s/conf` was never
created — only the view subtree root (and its parents) is ensured before
the write. -/
theorem C4_counterexample :
    createConfig jS ⟨"a"⟩ (.obj []) [] =
      (.error .noNode,
       [("/services", ⟨none, 0⟩), ("/services/s", ⟨none, 0⟩),
        ("/services/s/views", ⟨none, 0⟩)]) := by rfl

/-- C4 (amended): `create_config` ensures only the view subtree root
path (with its parents) before writing the ConfigNode.  That guarantees
the root environment's create cannot fail for a missing parent — the
ensured `/services/<svc>` is the root ConfigNode's parent — but for any
deeper environment no intermediate conf path is created, and the create
fails `NoNode` whenever the ConfigNode's conf-side parent is absent. -/
theorem C4_ensure_view_only :
    (∀ (s : Store) (m : List (String × JValue)),
        storeFind s jS.confP = none →
        (createConfig jS Env.Root (.obj m) s).1 = .ok () ∧
          storeFind (createConfig jS Env.Root (.obj m) s).2 jS.confP =
            some ⟨some (.obj m), 0⟩) ∧
    (∀ (s : Store) (e : Env) (conf : JValue),
        isMapping conf = true → e.isRoot = false →
        storeFind (ensurePath s jS.viewP) (jS.envPathOf e) = none →
        (parentPath (jS.envPathOf e)).data ≠ [] →
        storeFind (ensurePath s jS.viewP) (parentPath (jS.envPathOf e)) = none →
        createConfig jS e conf s = (.error .noNode, ensurePath s jS.viewP)) := by
  constructor
  · intro s m h
    have h1 : storeFind (ensurePath s jS.viewP) jS.confP = none := by
      rw [storeFind_ensurePath_none s jS.viewP jS.confP h, if_neg (by decide)]
    have hpar : (storeFind (ensurePath s jS.viewP) (parentPath jS.confP)).isSome := by
      have hpp : parentPath jS.confP = "/services/s" := by rfl
      rw [hpp]
      cases h2 : storeFind s "/services/s" with
      | some n => rw [storeFind_ensurePath_some s jS.viewP _ n h2]; rfl
      | none =>
        rw [storeFind_ensurePath_none s jS.viewP _ h2, if_pos (by decide)]
        rfl
    have hcr : zkCreate (ensurePath s jS.viewP) (jS.envPathOf Env.Root) (.obj m) =
        (.ok (), ensurePath s jS.viewP ++ [(jS.confP, ⟨some (.obj m), 0⟩)]) := by
      rw [envPathOf_root]
      unfold zkCreate
      rw [h1]
      dsimp only
      rw [if_pos (Or.inr hpar)]
    have hconf2 : storeFind
        (ensurePath s jS.viewP ++ [(jS.confP, ⟨some (.obj m), 0⟩)]) jS.confP =
        some ⟨some (.obj m), 0⟩ := by
      rw [storeFind_append_single, h1]
      simp
    have hview1 : ∃ nv, storeFind (ensurePath s jS.viewP) jS.viewP = some nv := by
      cases h2 : storeFind s jS.viewP with
      | some n => exact ⟨n, storeFind_ensurePath_some s jS.viewP _ n h2⟩
      | none =>
        refine ⟨⟨none, 0⟩, ?_⟩
        rw [storeFind_ensurePath_none s jS.viewP _ h2, if_pos (by decide)]
    obtain ⟨nv, hnv⟩ := hview1
    have hview2 : storeFind
        (ensurePath s jS.viewP ++ [(jS.confP, ⟨some (.obj m), 0⟩)])
        (jS.viewPathOf Env.Root) = some nv := by
      rw [viewPathOf_root, storeFind_append_single, hnv]
    have hget : jonesGet
        (ensurePath s jS.viewP ++ [(jS.confP, ⟨some (.obj m), 0⟩)]) jS.confP =
        .ok (0, .obj m) := by
      unfold jonesGet
      rw [hconf2]
    have hflat := flatten_root jS
      (ensurePath s jS.viewP ++ [(jS.confP, ⟨some (.obj m), 0⟩)]) m 0 hget
    have hcc := createConfig_ok_step jS Env.Root (.obj m) s _ rfl hcr
    have huv := updateView_ok_step jS Env.Root
      (ensurePath s jS.viewP ++ [(jS.confP, ⟨some (.obj m), 0⟩)]) nv _ hview2 hflat
    rw [hcc, huv]
    refine ⟨rfl, ?_⟩
    rw [storeFind_overwrite, if_neg (by rw [viewPathOf_root]; decide), hconf2]
  · intro s e conf hm hr h3 h4 h5
    unfold createConfig
    rw [if_neg (by simp [hm])]
    dsimp only
    unfold zkCreate
    rw [h3]
    dsimp only
    have hne : ¬((parentPath (jS.envPathOf e)).data = [] ∨
        (storeFind (ensurePath s jS.viewP) (parentPath (jS.envPathOf e))).isSome = true) := by
      intro hor
      rcases hor with h6 | h6
      · exact h4 h6
      · rw [h5] at h6
        simp at h6
    rw [if_neg hne]

/-- C4 witness for the amended statement: the root create succeeds on an
empty store, and `create_config('a', {})` fails `NoNode` there. -/
theorem C4_witness :
    ((createConfig jS Env.Root (.obj []) []).1 = .ok () ∧
      storeFind (createConfig jS Env.Root (.obj []) []).2 jS.confP =
        some ⟨some (.obj []), 0⟩) ∧
    createConfig jS ⟨"a"⟩ (.obj [("k", .null)]) [] =
      (.error .noNode, ensurePath [] jS.viewP) :=
  ⟨C4_ensure_view_only.1 [] [] (by rfl),
   C4_ensure_view_only.2 [] ⟨"a"⟩ (.obj [("k", .null)]) (by rfl) (by rfl)
     (by rfl) (by decide) (by rfl)⟩

/-! ## Claim C7 -/

/-- C7 counterexample: the payload `'{"x": "a -> b -> c"}'` (a valid
structured object whose value merely mentions `' -> '`) does not match
the legacy newline-separated name-SEP-destination pattern, and the
claim therefore requires structured decoding; but `ZNodeMap._get`
detects legacy data by a substring scan, hands this payload to the
legacy parser, and the decode fails instead of returning the structured
value. -/
theorem C7_counterexample :
    NM.matchesLegacyPattern "\x7b\"x\": \"a -> b -> c\"\x7d" = false ∧
    NM.jsonParseStrMap "\x7b\"x\": \"a -> b -> c\"\x7d" =
      some [("x", "a -> b -> c")] ∧
    NM.decode "\x7b\"x\": \"a -> b -> c\"\x7d" = none :=
  ⟨by rfl, by rfl, by rfl⟩

/-- C7 (amended): `ZNodeMap` decodes an empty payload as the empty map;
a payload *containing the substring* `' -> '` anywhere is decoded with
the legacy parser (in particular the legacy example
`"a -> b\nc -> d"` decodes to `{a: b, c: d}`), and any other payload is
decoded as structured data; every successful `set` or `delete` writes
the structured encoding, migrating a legacy node in place on first
modification, while `get_all` is a pure read of the raw payload. -/
theorem C7_decode_migrate :
    NM.decode "" = some [] ∧
    NM.decode "a -> b\nc -> d" = some [("a", "b"), ("c", "d")] ∧
    (∀ d : String, d.data ≠ [] → NM.containsSeq NM.OLD_SEP d.data = false →
        NM.decode d = NM.jsonParseStrMap d) ∧
    (∀ d : String, d.data ≠ [] → NM.containsSeq NM.OLD_SEP d.data = true →
        NM.decode d = NM.legacyDeserialize d) ∧
    (∀ (st : NM.Node) (name dest : String) (st2 : NM.Node),
        NM.set st name dest = some st2 →
        ∃ m2, st2.raw = NM.jsonDumpStrMap m2) ∧
    (∀ (st : NM.Node) (name : String) (st2 : NM.Node),
        NM.delete st name = some st2 →
        ∃ m2, st2.raw = NM.jsonDumpStrMap m2) ∧
    (∀ st : NM.Node, NM.getAll st = NM.decode st.raw) ∧
    NM.set ⟨"a -> b\nc -> d", 5⟩ "e" "f" =
      some ⟨NM.jsonDumpStrMap [("a", "b"), ("c", "d"), ("e", "f")], 6⟩ := by
  refine ⟨by rfl, by rfl, ?_, ?_, ?_, ?_, fun st => rfl, by rfl⟩
  · intro d hne hsub
    unfold NM.decode
    rw [if_neg hne, hsub]
    simp only [Bool.false_eq_true, if_false]
  · intro d hne hsub
    unfold NM.decode
    rw [if_neg hne, hsub]
    simp only [if_true]
  · intro st name dest st2 hset
    unfold NM.set at hset
    cases hd : NM.decode st.raw with
    | none => rw [hd] at hset; cases hset
    | some m =>
      rw [hd] at hset
      dsimp only [Option.map] at hset
      cases hset
      exact ⟨NM.setKeyS m name dest, rfl⟩
  · intro st name st2 hdel
    unfold NM.delete at hdel
    cases hd : NM.decode st.raw with
    | none => rw [hd] at hdel; cases hdel
    | some m =>
      rw [hd] at hdel
      dsimp only at hdel
      by_cases hmem : (m.any (fun p => p.1 = name)) = true
      · rw [if_pos hmem] at hdel
        cases hdel
        exact ⟨m.filter (fun p => ¬(p.1 = name)), rfl⟩
      · rw [if_neg hmem] at hdel
        cases hdel

/-- C7 witness: the amended substring-based policy evaluated on a
structured payload with no separator occurrence. -/
theorem C7_witness :
    NM.decode "\x7b\"k\": \"v\"\x7d" = NM.jsonParseStrMap "\x7b\"k\": \"v\"\x7d" ∧
    NM.jsonParseStrMap "\x7b\"k\": \"v\"\x7d" = some [("k", "v")] :=
  ⟨C7_decode_migrate.2.2.1 "\x7b\"k\": \"v\"\x7d" (by decide) (by rfl), by rfl⟩

theorem zkDelete_ok_filter (s : Store) (p : String) (ver : Option Nat)
    (r : Unit) (s1 : Store) (h : zkDelete s p ver = (.ok r, s1)) :
    s1 = s.filter (fun en => ¬(en.1 = p)) := by
  unfold zkDelete at h
  cases hf : storeFind s p with
  | none => rw [hf] at h; cases h
  | some n =>
    rw [hf] at h
    cases ver with
    | some v =>
      dsimp only at h
      by_cases hv : v = n.version
      · rw [if_pos hv] at h
        cases hc : hasChild s p with
        | true => simp only [hc] at h; cases h
        | false =>
          simp only [hc] at h
          cases h
          rfl
      · rw [if_neg hv] at h; cases h
    | none =>
      dsimp only at h
      cases hc : hasChild s p with
      | true => simp only [hc] at h; cases h
      | false =>
        simp only [hc] at h
        cases h
        rfl

/-! ## Claim C8 -/

/-- C8: a successful `delete_config(E, version)` removes E's ConfigNode
and then its ViewNode, so a subsequent `get_config_by_env(E)` fails
`NotFound`, and every other store node — in particular every descendant
environment's config and view — is left exactly as it was. -/
theorem C8_delete_removes_config_and_view (j : Jones) (e : Env) (v : Nat)
    (s s' : Store) (hok : deleteConfig j e v s = (.ok (), s')) :
    storeFind s' (j.envPathOf e) = none ∧
    storeFind s' (j.viewPathOf e) = none ∧
    getConfigByEnv j e s' = .error .noNode ∧
    ∀ p, p ≠ j.envPathOf e → p ≠ j.viewPathOf e →
      storeFind s' p = storeFind s p := by
  unfold deleteConfig at hok
  rcases hd1 : zkDelete s (j.envPathOf e) (some v) with ⟨r1, s1⟩
  rw [hd1] at hok
  cases r1 with
  | error err =>
    dsimp only at hok
    injection hok with h1 h2
    cases h1
  | ok u =>
    dsimp only at hok
    have hs1 := zkDelete_ok_filter s (j.envPathOf e) (some v) u s1 hd1
    have hs2 := zkDelete_ok_filter s1 (j.viewPathOf e) none () s' hok
    subst hs1
    subst hs2
    have hfc : storeFind
        ((s.filter (fun en => ¬(en.1 = j.envPathOf e))).filter
          (fun en => ¬(en.1 = j.viewPathOf e))) (j.envPathOf e) = none := by
      rw [storeFind_erase]
      by_cases hq : j.envPathOf e = j.viewPathOf e
      · rw [if_pos hq]
      · rw [if_neg hq, storeFind_erase, if_pos rfl]
    refine ⟨hfc, ?_, ?_, ?_⟩
    · rw [storeFind_erase, if_pos rfl]
    · unfold getConfigByEnv jonesGet
      rw [hfc]
    · intro p hp1 hp2
      rw [storeFind_erase, if_neg hp2, storeFind_erase, if_neg hp1]

/-- C8 witness: deleting `prod/us` from the demo store removes exactly
its config and view. -/
theorem C8_witness :
    storeFind (deleteConfig jS ⟨"prod/us"⟩ 0 demoStore).2
        (jS.envPathOf ⟨"prod/us"⟩) = none ∧
    storeFind (deleteConfig jS ⟨"prod/us"⟩ 0 demoStore).2
        (jS.viewPathOf ⟨"prod/us"⟩) = none ∧
    getConfigByEnv jS ⟨"prod/us"⟩ (deleteConfig jS ⟨"prod/us"⟩ 0 demoStore).2 =
      .error .noNode ∧
    ∀ p, p ≠ jS.envPathOf ⟨"prod/us"⟩ → p ≠ jS.viewPathOf ⟨"prod/us"⟩ →
      storeFind (deleteConfig jS ⟨"prod/us"⟩ 0 demoStore).2 p =
        storeFind demoStore p :=
  C8_delete_removes_config_and_view jS ⟨"prod/us"⟩ 0 demoStore
    (deleteConfig jS ⟨"prod/us"⟩ 0 demoStore).2 (by rfl)

/-! ## Claim C9 -/

/-- C9: `assoc_host(h, root)` performs no validation — it succeeds for
every hostname whenever the association node holds a JSON map whose
serialized form is free of the legacy `' -> '` separator (so
`ZNodeMap._get`'s substring scan does not divert it to the legacy
parser) — and records `h` mapped to the view subtree root path `views`
itself in the association map under the map's expected version.  Yet
`get_associations(root)` returns the `None` sentinel on every store
without even reading the map, and for every non-root environment the
filter destination `views/<env>` differs from the recorded root
destination `views`, so the association can never be observed through
`get_associations`. -/
theorem C9_root_association_unobservable :
    (∀ (s : Store) (h : String) (m : List (String × JValue)) (ver : Nat),
        storeFind s jS.nodemapP = some ⟨some (.obj m), ver⟩ →
        NM.containsSeq NM.OLD_SEP (jsonDump (JValue.obj m)).data = false →
        assocHost jS h Env.Root s =
          (.ok (), s.map (fun en =>
            if en.1 = jS.nodemapP then
              (jS.nodemapP, ⟨some (.obj (setKey m h (.str jS.viewP))), ver + 1⟩)
            else en))) ∧
    (∀ s : Store, getAssociations jS Env.Root s = .ok none) ∧
    (∀ (e : Env), e.isRoot = false →
        jeqStr (JValue.str jS.viewP) (jS.viewPathOf e) = false) ∧
    (∀ (e : Env) (s : Store) (m : List (String × JValue)) (ver : Nat),
        e.isRoot = false →
        storeFind s jS.nodemapP = some ⟨some (.obj m), ver⟩ →
        NM.containsSeq NM.OLD_SEP (jsonDump (JValue.obj m)).data = false →
        getAssociations jS e s =
          .ok (some ((m.filter (fun kv => jeqStr kv.2 (jS.viewPathOf e))).map
            (fun kv => kv.1)))) := by
  refine ⟨?_, ?_, ?_, ?_⟩
  · intro s h m ver hfind hsep
    unfold assocHost znmSet znmGet
    rw [hfind]
    dsimp only
    rw [hsep]
    simp only [Bool.false_eq_true, if_false]
    unfold zkSet
    rw [hfind]
    dsimp only
    rw [if_pos rfl]
    rw [viewPathOf_root]
  · intro s
    rfl
  · intro e hr
    unfold jeqStr Jones.viewPathOf getPathByEnv
    rw [hr]
    simp only [Bool.false_eq_true, if_false]
    rw [decide_eq_false_iff_not]
    intro habs
    have hlen := congrArg (fun t => t.data.length) habs
    simp only [String.data_append, List.length_append] at hlen
    have hone : ("/" : String).data.length = 1 := rfl
    rw [hone] at hlen
    omega
  · intro e s m ver hr hfind hsep
    unfold getAssociations
    rw [hr]
    simp only [Bool.false_eq_true, if_false]
    unfold znmGet
    rw [hfind]
    dsimp only
    rw [hsep]
    simp only [Bool.false_eq_true, if_false]

/-- C9 witness: on the demo store a root association write succeeds and
records `views` as destination; root queries return the sentinel; the
`prod` filter rejects the `views` destination. -/
theorem C9_witness :
    assocHost jS "h2" Env.Root demoStoreNM =
      (.ok (), demoStoreNM.map (fun en =>
        if en.1 = jS.nodemapP then
          (jS.nodemapP,
           ⟨some (.obj (setKey [("h1", .str "/services/s/views/prod")] "h2"
              (.str jS.viewP))), 2⟩)
        else en)) ∧
    getAssociations jS Env.Root demoStoreNM = .ok none ∧
    jeqStr (JValue.str jS.viewP) (jS.viewPathOf ⟨"prod"⟩) = false ∧
    getAssociations jS ⟨"prod"⟩ demoStoreNM =
      .ok (some ((([("h1", JValue.str "/services/s/views/prod")]).filter
        (fun kv => jeqStr kv.2 (jS.viewPathOf ⟨"prod"⟩))).map
          (fun kv => kv.1))) :=
  ⟨C9_root_association_unobservable.1 demoStoreNM "h2"
      [("h1", .str "/services/s/views/prod")] 1 (by rfl) (by decide),
   C9_root_association_unobservable.2.1 demoStoreNM,
   C9_root_association_unobservable.2.2.1 ⟨"prod"⟩ (by rfl),
   C9_root_association_unobservable.2.2.2 ⟨"prod"⟩ demoStoreNM
      [("h1", .str "/services/s/views/prod")] 1 (by rfl) (by rfl) (by decide)⟩

theorem lookupKey_cons (a : String) (v : JValue)
    (rest : List (String × JValue)) (k : String) :
    lookupKey ((a, v) :: rest) k =
      if a = k then some v else lookupKey rest k := by
  by_cases h : a = k <;> simp [lookupKey, List.find?_cons, h]

theorem lookupKey_replace_ne (d : List (String × JValue)) (a : String)
    (v : JValue) (k : String) (hk : ¬ k = a) :
    lookupKey (d.map (fun p => if p.1 = a then (a, v) else p)) k =
      lookupKey d k := by
  induction d with
  | nil => rfl
  | cons b rest ih =>
    obtain ⟨b1, b2⟩ := b
    simp only [List.map_cons]
    dsimp only
    by_cases hb : b1 = a
    · rw [if_pos hb, lookupKey_cons, lookupKey_cons,
        if_neg (fun h => hk h.symm), if_neg (fun h : b1 = k => hk (h.symm.trans hb)),
        ih]
    · rw [if_neg hb, lookupKey_cons, lookupKey_cons]
      by_cases hbk : b1 = k
      · rw [if_pos hbk, if_pos hbk]
      · rw [if_neg hbk, if_neg hbk, ih]

theorem lookupKey_replace_hit (a : String) (v : JValue) :
    ∀ d : List (String × JValue), (d.any (fun p => p.1 = a)) = true →
    lookupKey (d.map (fun p => if p.1 = a then (a, v) else p)) a = some v := by
  intro d
  induction d with
  | nil =>
    intro h
    rw [List.any_nil] at h
    exact Bool.noConfusion h
  | cons b rest ih =>
    intro hany
    obtain ⟨b1, b2⟩ := b
    simp only [List.map_cons]
    dsimp only
    by_cases hb : b1 = a
    · rw [if_pos hb, lookupKey_cons, if_pos rfl]
    · rw [if_neg hb, lookupKey_cons, if_neg hb]
      apply ih
      simp only [List.any_cons] at hany
      simpa [hb] using hany

theorem lookupKey_none_of_any_false (d : List (String × JValue)) (a : String)
    (hany : (d.any (fun p => p.1 = a)) = false) : lookupKey d a = none := by
  unfold lookupKey
  rw [List.find?_eq_none.mpr]
  · rfl
  · intro x hx
    intro habs
    have hmem : (d.any (fun p => p.1 = a)) = true :=
      List.any_eq_true.mpr ⟨x, hx, habs⟩
    rw [hmem] at hany
    exact Bool.noConfusion hany

theorem lookupKey_append_one (d : List (String × JValue)) (a : String)
    (v : JValue) (k : String) :
    lookupKey (d ++ [(a, v)]) k =
      match lookupKey d k with
      | some w => some w
      | none => if a = k then some v else none := by
  induction d with
  | nil =>
    rw [List.nil_append, lookupKey_cons]
    show _ = if a = k then some v else none
    by_cases hk : a = k
    · rw [if_pos hk, if_pos hk]
    · rw [if_neg hk, if_neg hk]
      rfl
  | cons b rest ih =>
    obtain ⟨b1, b2⟩ := b
    rw [List.cons_append, lookupKey_cons, lookupKey_cons]
    by_cases hbk : b1 = k
    · rw [if_pos hbk, if_pos hbk]
    · rw [if_neg hbk, if_neg hbk, ih]

theorem lookupKey_setKey (d : List (String × JValue)) (a : String)
    (v : JValue) (k : String) :
    lookupKey (setKey d a v) k = if k = a then some v else lookupKey d k := by
  unfold setKey
  by_cases hany : (d.any (fun p => p.1 = a)) = true
  · rw [if_pos hany]
    by_cases hk : k = a
    · subst hk
      rw [if_pos rfl]
      exact lookupKey_replace_hit k v d hany
    · rw [if_neg hk]
      exact lookupKey_replace_ne d a v k hk
  · rw [if_neg hany]
    rw [lookupKey_append_one]
    have hanyf : (d.any (fun p => p.1 = a)) = false := by
      cases hb : d.any (fun p => p.1 = a) with
      | false => rfl
      | true => exact absurd hb hany
    have hnone := lookupKey_none_of_any_false d a hanyf
    by_cases hk : k = a
    · subst hk
      rw [hnone, if_pos rfl]
    · rw [if_neg hk]
      cases hd : lookupKey d k with
      | some w => rfl
      | none =>
        rw [if_neg (fun h => hk h.symm)]

theorem lookupKey_none_of_not_mem (m : List (String × JValue)) (k : String)
    (h : k ∉ m.map Prod.fst) : lookupKey m k = none := by
  unfold lookupKey
  rw [List.find?_eq_none.mpr]
  · rfl
  · intro x hx
    simp only [decide_eq_true_eq]
    intro habs
    exact h (habs ▸ List.mem_map_of_mem Prod.fst hx)

theorem lookupKey_pyUpdate (m : List (String × JValue)) :
    ∀ (d : List (String × JValue)) (k : String),
    (m.map Prod.fst).Nodup →
    lookupKey (pyUpdate d m) k =
      match lookupKey m k with
      | some v => some v
      | none => lookupKey d k := by
  induction m with
  | nil => intro d k _; rfl
  | cons b rest ih =>
    intro d k hnd
    obtain ⟨a, v⟩ := b
    simp only [List.map_cons, List.nodup_cons] at hnd
    obtain ⟨hna, hndr⟩ := hnd
    have hstep : pyUpdate d ((a, v) :: rest) = pyUpdate (setKey d a v) rest := rfl
    rw [hstep, ih (setKey d a v) k hndr, lookupKey_cons]
    by_cases hak : a = k
    · subst hak
      rw [if_pos rfl]
      have hrest : lookupKey rest a = none :=
        lookupKey_none_of_not_mem rest a hna
      rw [hrest, lookupKey_setKey, if_pos rfl]
    · rw [if_neg hak]
      cases hr : lookupKey rest k with
      | some w => rfl
      | none =>
        rw [lookupKey_setKey, if_neg (fun h => hak h.symm)]

theorem lookupKey_overlay_fold (ms : List (List (String × JValue))) :
    ∀ (d : List (String × JValue)) (k : String),
    (∀ m ∈ ms, (m.map Prod.fst).Nodup) →
    lookupKey (ms.foldl pyUpdate d) k =
      match chainLookup ms k with
      | some v => some v
      | none => lookupKey d k := by
  induction ms with
  | nil => intro d k _; rfl
  | cons m ms ih =>
    intro d k hnd
    rw [List.foldl_cons,
      ih (pyUpdate d m) k (fun m2 hm2 => hnd m2 (List.mem_cons_of_mem m hm2)),
      lookupKey_pyUpdate m d k (hnd m (List.mem_cons_self m ms))]
    have hcl : chainLookup (m :: ms) k =
        match chainLookup ms k with
        | some v => some v
        | none => lookupKey m k := rfl
    rw [hcl]
    cases hc : chainLookup ms k with
    | some v => rfl
    | none =>
      cases hm : lookupKey m k with
      | some w => rfl
      | none => rfl

theorem chain_flatten (j : Jones) (s : Store) :
    ∀ (L : List String) (ms : List (List (String × JValue)))
      (d : List (String × JValue)),
    optMapM (chainConfFn j s) L = some ms →
    (match exMapM (chainPath j) L with
     | Except.error err => Except.error err
     | Except.ok paths =>
       exFoldl
         (fun data p =>
           match jonesGet s p with
           | Except.error err => Except.error err
           | Except.ok (_, JValue.obj m) => Except.ok (pyUpdate data m)
           | Except.ok (_, _) => Except.error JErr.malformed)
         d paths) = Except.ok (ms.foldl pyUpdate d) := by
  intro L
  induction L with
  | nil =>
    intro ms d hopt
    unfold optMapM at hopt
    cases hopt
    rfl
  | cons n L ih =>
    intro ms d hopt
    unfold optMapM at hopt
    cases hf : chainConfFn j s n with
    | none => rw [hf] at hopt; cases hopt
    | some m =>
      rw [hf] at hopt
      dsimp only at hopt
      cases hrest : optMapM (chainConfFn j s) L with
      | none => rw [hrest] at hopt; cases hopt
      | some ms2 =>
        rw [hrest] at hopt
        dsimp only at hopt
        cases hopt
        unfold chainConfFn at hf
        cases hmk : Env.make (some n) with
        | none => rw [hmk] at hf; cases hf
        | some e2 =>
          rw [hmk] at hf
          dsimp only at hf
          cases hsf : storeFind s (j.envPathOf e2) with
          | none => rw [hsf] at hf; cases hf
          | some nd =>
            rw [hsf] at hf
            dsimp only at hf
            cases hd : nd.data with
            | none => rw [hd] at hf; cases hf
            | some jv =>
              rw [hd] at hf
              cases jv with
              | str s2 => dsimp only at hf; cases hf
              | num x => dsimp only at hf; cases hf
              | bool b => dsimp only at hf; cases hf
              | null => dsimp only at hf; cases hf
              | obj m2 =>
                dsimp only at hf
                cases hf
                have hcp : chainPath j n = .ok (j.envPathOf e2) := by
                  unfold chainPath
                  rw [hmk]
                have hget : jonesGet s (j.envPathOf e2) =
                    .ok (nd.version, .obj m) := by
                  unfold jonesGet
                  rw [hsf]
                  dsimp only
                  rw [hd]
                unfold exMapM
                rw [hcp]
                have hrec := ih ms2 (pyUpdate d m) hrest
                cases hm2 : exMapM (chainPath j) L with
                | error err =>
                  rw [hm2] at hrec
                  cases hrec
                | ok paths =>
                  rw [hm2] at hrec
                  dsimp only
                  unfold exFoldl
                  rw [hget]
                  exact hrec

/-! ## Claim C1 -/

/-- C1: for an environment whose whole ancestor chain of ConfigNodes
exists (with mapping payloads `ms`, root first), the flatten-from-root
computation returns exactly the overlay of the chain in root-to-leaf
order, `_update_view` materializes that overlay into the ViewNode, and
key-by-key the overlay resolves every key to its deepest definition in
the chain — deeper prefixes overwrite, unspecified keys are inherited. -/
theorem C1_view_is_chain_overlay (j : Jones) (s : Store) (e : Env)
    (ms : List (List (String × JValue)))
    (hchain : confChainData j s e = some ms)
    (hdest : (storeFind s (j.viewPathOf e)).isSome = true)
    (hnd : ∀ m ∈ ms, (m.map Prod.fst).Nodup) :
    flattenFromRoot j s e = .ok (overlay ms) ∧
    (∃ s2, updateView j e s = (.ok (), s2) ∧
      ∃ ver, storeFind s2 (j.viewPathOf e) =
        some ⟨some (.obj (overlay ms)), ver⟩) ∧
    (∀ k, lookupKey (overlay ms) k = chainLookup ms k) := by
  have hflat : flattenFromRoot j s e = .ok (overlay ms) := by
    unfold flattenFromRoot
    exact chain_flatten j s (chainNames e) ms [] hchain
  obtain ⟨nv, hnv⟩ := Option.isSome_iff_exists.mp hdest
  refine ⟨hflat, ⟨_, updateView_ok_step j e s nv (overlay ms) hnv hflat, ?_⟩, ?_⟩
  · refine ⟨nv.version + 1, ?_⟩
    rw [storeFind_overwrite, if_pos rfl, hnv]
    rfl
  · intro k
    have hfold := lookupKey_overlay_fold ms [] k hnd
    unfold overlay
    rw [hfold]
    cases chainLookup ms k with
    | some v => rfl
    | none => rfl

/-- C1 witness: the spec's §8 scenario; the `prod/us` view is the
overlay of root, `prod`, and `prod/us`, namely
`{timeout: 10, region: "us-east"}`. -/
theorem C1_witness :
    (flattenFromRoot jS demoStore ⟨"prod/us"⟩ = .ok (overlay c1Chain) ∧
      (∃ s2, updateView jS ⟨"prod/us"⟩ demoStore = (.ok (), s2) ∧
        ∃ ver, storeFind s2 (jS.viewPathOf ⟨"prod/us"⟩) =
          some ⟨some (.obj (overlay c1Chain)), ver⟩) ∧
      (∀ k, lookupKey (overlay c1Chain) k = chainLookup c1Chain k)) ∧
    overlay c1Chain =
      [("timeout", JValue.num 10), ("region", JValue.str "us-east")] :=
  ⟨C1_view_is_chain_overlay jS demoStore ⟨"prod/us"⟩ c1Chain (by rfl) (by rfl)
      (by decide),
   by rfl⟩

/-! ## Path-side machinery for the cascade frame -/

theorem confSide_viewSide_absurd (q : String)
    (hc : confSide q) (hv : viewSide q) : False := by
  obtain ⟨t1, h1⟩ := hc
  obtain ⟨t2, h2⟩ := hv
  have h3 : "/services/s/c".data ++ t1 = "/services/s/v".data ++ t2 :=
    h1.symm.trans h2
  have h4 := congrArg (List.take 13) h3
  rw [List.take_left' (by decide), List.take_left' (by decide)] at h4
  exact absurd h4 (by decide)

theorem isUnder_confSide (q : String) (h : isUnder jS.confP q = true) :
    confSide q := by
  unfold isUnder at h
  rw [List.isPrefixOf_iff_prefix] at h
  obtain ⟨t, ht⟩ := h
  refine ⟨"onf/".data ++ t, ?_⟩
  rw [← ht]
  have hsplit : (jS.confP ++ "/").data =
      "/services/s/c".data ++ "onf/".data := by decide
  rw [hsplit, List.append_assoc]

theorem isUnder_viewSide (q : String) (h : isUnder jS.viewP q = true) :
    viewSide q := by
  unfold isUnder at h
  rw [List.isPrefixOf_iff_prefix] at h
  obtain ⟨t, ht⟩ := h
  refine ⟨"iews/".data ++ t, ?_⟩
  rw [← ht]
  have hsplit : (jS.viewP ++ "/").data =
      "/services/s/v".data ++ "iews/".data := by decide
  rw [hsplit, List.append_assoc]

theorem confSide_confP : confSide jS.confP := ⟨"onf".data, by decide⟩

theorem viewSide_viewP : viewSide jS.viewP := ⟨"iews".data, by decide⟩

theorem confSide_envPathOf (e : Env) : confSide (jS.envPathOf e) := by
  unfold Jones.envPathOf getPathByEnv
  by_cases hr : e.isRoot = true
  · rw [if_pos hr]
    exact confSide_confP
  · rw [if_neg hr]
    refine ⟨"onf/".data ++ e.name.data, ?_⟩
    have hsplit : (jS.confP ++ "/" ++ e.name).data =
        (jS.confP ++ "/").data ++ e.name.data := by
      rw [String.data_append]
    rw [hsplit]
    have hsplit2 : (jS.confP ++ "/").data =
        "/services/s/c".data ++ "onf/".data := by decide
    rw [hsplit2, List.append_assoc]

theorem viewSide_viewPathOf (e : Env) : viewSide (jS.viewPathOf e) := by
  unfold Jones.viewPathOf getPathByEnv
  by_cases hr : e.isRoot = true
  · rw [if_pos hr]
    exact viewSide_viewP
  · rw [if_neg hr]
    refine ⟨"iews/".data ++ e.name.data, ?_⟩
    have hsplit : (jS.viewP ++ "/" ++ e.name).data =
        (jS.viewP ++ "/").data ++ e.name.data := by
      rw [String.data_append]
    rw [hsplit]
    have hsplit2 : (jS.viewP ++ "/").data =
        "/services/s/v".data ++ "iews/".data := by decide
    rw [hsplit2, List.append_assoc]

theorem chainPath_confSide (n : String) (p : String)
    (h : chainPath jS n = .ok p) : confSide p := by
  unfold chainPath at h
  cases hmk : Env.make (some n) with
  | none => rw [hmk] at h; cases h
  | some e2 =>
    rw [hmk] at h
    cases h
    exact confSide_envPathOf e2

theorem exMapM_chainPath_confSide :
    ∀ (L : List String) (paths : List String),
    exMapM (chainPath jS) L = .ok paths → ∀ p ∈ paths, confSide p := by
  intro L
  induction L with
  | nil =>
    intro paths h p hp
    unfold exMapM at h
    cases h
    simp at hp
  | cons n L ih =>
    intro paths h p hp
    unfold exMapM at h
    cases hcp : chainPath jS n with
    | error err => rw [hcp] at h; cases h
    | ok q =>
      rw [hcp] at h
      cases hrest : exMapM (chainPath jS) L with
      | error err => rw [hrest] at h; cases h
      | ok qs =>
        rw [hrest] at h
        cases h
        rcases List.mem_cons.mp hp with rfl | hmem
        · exact chainPath_confSide n p hcp
        · exact ih qs hrest p hmem

theorem jonesGet_congr (t t2 : Store) (p : String)
    (h : storeFind t p = storeFind t2 p) : jonesGet t p = jonesGet t2 p := by
  unfold jonesGet
  rw [h]

theorem exFoldl_flatten_congr (t t2 : Store)
    (h : ∀ p, confSide p → storeFind t p = storeFind t2 p) :
    ∀ (paths : List String) (d : List (String × JValue)),
    (∀ p ∈ paths, confSide p) →
    exFoldl
      (fun data p =>
        match jonesGet t p with
        | Except.error err => Except.error err
        | Except.ok (_, JValue.obj m) => Except.ok (pyUpdate data m)
        | Except.ok (_, _) => Except.error JErr.malformed)
      d paths =
    exFoldl
      (fun data p =>
        match jonesGet t2 p with
        | Except.error err => Except.error err
        | Except.ok (_, JValue.obj m) => Except.ok (pyUpdate data m)
        | Except.ok (_, _) => Except.error JErr.malformed)
      d paths := by
  intro paths
  induction paths with
  | nil => intro d _; rfl
  | cons p ps ih =>
    intro d hps
    unfold exFoldl
    rw [jonesGet_congr t t2 p (h p (hps p (List.mem_cons_self p ps)))]
    cases jonesGet t2 p with
    | error err => rfl
    | ok pr =>
      obtain ⟨ver, jv⟩ := pr
      cases jv with
      | obj m => exact ih (pyUpdate d m) (fun q hq => hps q (List.mem_cons_of_mem p hq))
      | str s2 => rfl
      | num x => rfl
      | bool b => rfl
      | null => rfl

theorem flatten_congr (t t2 : Store) (e2 : Env)
    (h : ∀ p, confSide p → storeFind t p = storeFind t2 p) :
    flattenFromRoot jS t e2 = flattenFromRoot jS t2 e2 := by
  unfold flattenFromRoot
  cases hm : exMapM (chainPath jS) (chainNames e2) with
  | error err => rfl
  | ok paths =>
    exact exFoldl_flatten_congr t t2 h paths []
      (exMapM_chainPath_confSide (chainNames e2) paths hm)

theorem zkSet_ok_char (s : Store) (p : String) (d : JValue) (v : Nat)
    (u : Unit) (s1 : Store) (h : zkSet s p d (some v) = (.ok u, s1)) :
    ∃ n, storeFind s p = some n ∧ v = n.version ∧
      s1 = s.map (fun en => if en.1 = p then (p, ⟨some d, n.version + 1⟩) else en) := by
  unfold zkSet at h
  cases hf : storeFind s p with
  | none => rw [hf] at h; cases h
  | some n =>
    rw [hf] at h
    dsimp only at h
    by_cases hv : v = n.version
    · rw [if_pos hv] at h
      cases h
      exact ⟨n, rfl, hv, rfl⟩
    · rw [if_neg hv] at h
      cases h

theorem filter_map_replace_fst (s : Store) (p : String) (nd : ZNode)
    (pred : String → Bool) :
    ((s.map (fun en => if en.1 = p then (p, nd) else en)).filter
        (fun en => pred en.1)).map (fun en => en.1) =
      (s.filter (fun en => pred en.1)).map (fun en => en.1) := by
  induction s with
  | nil => rfl
  | cons en s ih =>
    obtain ⟨a, b⟩ := en
    by_cases ha : a = p <;> cases hp : pred a <;>
      simp_all [List.filter_cons, List.map_cons]

theorem zkWalk_map_replace (s : Store) (p : String) (nd : ZNode) (q : String) :
    zkWalk (s.map (fun en => if en.1 = p then (p, nd) else en)) q = zkWalk s q := by
  unfold zkWalk
  rw [filter_map_replace_fst s p nd (fun r => isUnder q r)]

theorem Env_make_some_eq (nm : String) (e2 : Env)
    (h : Env.make (some nm) = some e2) : e2 = ⟨nm⟩ := by
  unfold Env.make at h
  dsimp only at h
  by_cases h1 : nm.data = []
  · rw [if_pos h1] at h
    cases h
    have hnm : nm = "" := by
      cases nm with
      | mk l => exact congrArg String.mk h1
    rw [hnm]
  · rw [if_neg h1] at h
    by_cases h2 : nm.data.head? = some '/'
    · rw [if_pos h2] at h
      cases h
    · rw [if_neg h2] at h
      cases h
      rfl

theorem viewPathOf_inj (n1 n2 : String)
    (h : jS.viewPathOf ⟨n1⟩ = jS.viewPathOf ⟨n2⟩) : n1 = n2 := by
  unfold Jones.viewPathOf getPathByEnv Env.isRoot at h
  by_cases h1 : n1 = ""
  · by_cases h2 : n2 = ""
    · rw [h1, h2]
    · rw [if_pos (by simp [h1]), if_neg (by simp [h2])] at h
      have hlen := congrArg (fun t => t.data.length) h
      simp only [String.data_append, List.length_append] at hlen
      have hone : ("/" : String).data.length = 1 := rfl
      rw [hone] at hlen
      omega
  · by_cases h2 : n2 = ""
    · rw [if_neg (by simp [h1]), if_pos (by simp [h2])] at h
      have hlen := congrArg (fun t => t.data.length) h
      simp only [String.data_append, List.length_append] at hlen
      have hone : ("/" : String).data.length = 1 := rfl
      rw [hone] at hlen
      omega
    · rw [if_neg (by simp [h1]), if_neg (by simp [h2])] at h
      have hd := congrArg String.data h
      simp only [String.data_append, List.append_assoc] at hd
      have h5 := List.append_cancel_left hd
      have h6 := List.append_cancel_left h5
      cases n1 with
      | mk l1 =>
        cases n2 with
        | mk l2 =>
          simp only at h6
          exact congrArg String.mk h6

theorem updateView_cascade_step (e2 : Env) (t t2 : Store)
    (hanc : ∀ q ∈ pathChain (jS.viewPathOf e2), q ≠ jS.viewPathOf e2 →
        (storeFind t q).isSome = true)
    (hstep : updateView jS e2 t = (.ok (), t2)) :
    (∃ m ver, flattenFromRoot jS t e2 = .ok m ∧
        storeFind t2 (jS.viewPathOf e2) = some ⟨some (.obj m), ver⟩) ∧
    (∀ q2, q2 ≠ jS.viewPathOf e2 → storeFind t2 q2 = storeFind t q2) := by
  have ht1 : ∀ q2, q2 ≠ jS.viewPathOf e2 →
      storeFind (if (storeFind t (jS.viewPathOf e2)).isSome = true then t
        else ensurePath t (jS.viewPathOf e2)) q2 = storeFind t q2 := by
    intro q2 hq2
    by_cases hex : (storeFind t (jS.viewPathOf e2)).isSome = true
    · rw [if_pos hex]
    · rw [if_neg hex]
      rw [storeFind_ensurePath]
      cases hfq : storeFind t q2 with
      | some n => rfl
      | none =>
        by_cases hqc : q2 ∈ pathChain (jS.viewPathOf e2)
        · exact absurd (hanc q2 hqc hq2) (by rw [hfq]; simp)
        · rw [if_neg hqc]
  simp only [updateView] at hstep
  generalize hs1def : (if (storeFind t (jS.viewPathOf e2)).isSome = true then t
      else ensurePath t (jS.viewPathOf e2)) = t1 at hstep ht1
  cases hfl : flattenFromRoot jS t1 e2 with
  | error err =>
    rw [hfl] at hstep
    cases hstep
  | ok mf =>
    rw [hfl] at hstep
    unfold zkSet at hstep
    cases hfd : storeFind t1 (jS.viewPathOf e2) with
    | none =>
      rw [hfd] at hstep
      cases hstep
    | some nv =>
      rw [hfd] at hstep
      dsimp only at hstep
      cases hstep
      have hflt : flattenFromRoot jS t e2 = .ok mf := by
        rw [← hfl]
        exact flatten_congr t t1 e2 (fun p hp =>
          (ht1 p (fun habs =>
            confSide_viewSide_absurd p hp (habs ▸ viewSide_viewPathOf e2))).symm)
      constructor
      · refine ⟨mf, nv.version + 1, hflt, ?_⟩
        rw [storeFind_overwrite, if_pos rfl, hfd]
        rfl
      · intro q2 hq2
        rw [storeFind_overwrite, if_neg hq2]
        exact ht1 q2 hq2

theorem cascade_loop (s1 : Store) :
    ∀ (L : List String) (t t2 : Store),
    (∀ p, confSide p → storeFind t p = storeFind s1 p) →
    (∀ c ∈ L, ∀ q ∈ pathChain (jS.viewPathOf ⟨pyDrop c (jS.confP.length + 1)⟩),
        q ≠ jS.viewPathOf ⟨pyDrop c (jS.confP.length + 1)⟩ →
        (storeFind t q).isSome = true) →
    updateViewsLoop jS L t = (.ok (), t2) →
    (∀ c ∈ L, ∃ m ver,
        flattenFromRoot jS s1 ⟨pyDrop c (jS.confP.length + 1)⟩ = .ok m ∧
        storeFind t2 (jS.viewPathOf ⟨pyDrop c (jS.confP.length + 1)⟩) =
          some ⟨some (.obj m), ver⟩) ∧
    (∀ p, (∀ c ∈ L, p ≠ jS.viewPathOf ⟨pyDrop c (jS.confP.length + 1)⟩) →
        storeFind t2 p = storeFind t p) := by
  intro L
  induction L with
  | nil =>
    intro t t2 hconf hanc hloop
    unfold updateViewsLoop at hloop
    cases hloop
    exact ⟨fun c hc => absurd hc (List.not_mem_nil c), fun p _ => rfl⟩
  | cons c cs ih =>
    intro t t2 hconf hanc hloop
    unfold updateViewsLoop at hloop
    cases hmk : Env.make (some (pyDrop c (jS.confP.length + 1))) with
    | none => rw [hmk] at hloop; cases hloop
    | some e2 =>
      rw [hmk] at hloop
      dsimp only at hloop
      have he2 : e2 = ⟨pyDrop c (jS.confP.length + 1)⟩ := Env_make_some_eq _ _ hmk
      subst he2
      rcases hstep : updateView jS ⟨pyDrop c (jS.confP.length + 1)⟩ t with ⟨u1, t1⟩
      rw [hstep] at hloop
      cases u1 with
      | error err => dsimp only at hloop; cases hloop
      | ok u =>
        dsimp only at hloop
        have hstepan := updateView_cascade_step ⟨pyDrop c (jS.confP.length + 1)⟩
          t t1 (hanc c (List.mem_cons_self c cs)) hstep
        obtain ⟨⟨m0, ver0, hfl0, hfd0⟩, hframe0⟩ := hstepan
        have hconf1 : ∀ p, confSide p → storeFind t1 p = storeFind s1 p := by
          intro p hp
          rw [hframe0 p (fun habs => confSide_viewSide_absurd p hp
            (habs ▸ viewSide_viewPathOf _))]
          exact hconf p hp
        have hanc1 : ∀ c2 ∈ cs,
            ∀ q ∈ pathChain (jS.viewPathOf ⟨pyDrop c2 (jS.confP.length + 1)⟩),
            q ≠ jS.viewPathOf ⟨pyDrop c2 (jS.confP.length + 1)⟩ →
            (storeFind t1 q).isSome = true := by
          intro c2 hc2 q hq hqne
          by_cases hqd : q = jS.viewPathOf ⟨pyDrop c (jS.confP.length + 1)⟩
          · rw [hqd, hfd0]
            rfl
          · rw [hframe0 q hqd]
            exact hanc c2 (List.mem_cons_of_mem c hc2) q hq hqne
        obtain ⟨hpos1, hframe1⟩ := ih t1 t2 hconf1 hanc1 hloop
        constructor
        · intro c2 hc2
          rcases List.mem_cons.mp hc2 with rfl | hmem
          · have hflt : flattenFromRoot jS s1 ⟨pyDrop c2 (jS.confP.length + 1)⟩ =
                .ok m0 := by
              rw [← hfl0]
              exact flatten_congr s1 t _ (fun p hp => (hconf p hp).symm)
            by_cases hdup : ∀ c3 ∈ cs,
                jS.viewPathOf ⟨pyDrop c2 (jS.confP.length + 1)⟩ ≠
                  jS.viewPathOf ⟨pyDrop c3 (jS.confP.length + 1)⟩
            · refine ⟨m0, ver0, hflt, ?_⟩
              rw [hframe1 _ hdup]
              exact hfd0
            · push_neg at hdup
              obtain ⟨c3, hc3, heq⟩ := hdup
              have hnames := viewPathOf_inj _ _ heq
              obtain ⟨m3, ver3, hfl3, hfd3⟩ := hpos1 c3 hc3
              have hflt3 : flattenFromRoot jS s1 ⟨pyDrop c3 (jS.confP.length + 1)⟩ =
                  .ok m0 := by
                rw [← hnames]
                exact hflt
              rw [hfl3] at hflt3
              injection hflt3 with hm30
              refine ⟨m0, ver3, hflt, ?_⟩
              rw [heq, hfd3, hm30]
          · exact hpos1 c2 hmem
        · intro p hp
          rw [hframe1 p (fun c2 hc2 => hp c2 (List.mem_cons_of_mem c hc2))]
          exact hframe0 p (hp c (List.mem_cons_self c cs))

theorem isUnder_of_data (p q : String) (rest : List Char)
    (h : q.data = (p ++ "/").data ++ rest) : isUnder p q = true := by
  unfold isUnder
  rw [List.isPrefixOf_iff_prefix]
  exact ⟨rest, h.symm⟩

theorem zkWalk_mem (s : Store) (p : String) (c : String)
    (h : c ∈ zkWalk s p) : c = p ∨ isUnder p c = true := by
  unfold zkWalk at h
  rcases List.mem_cons.mp h with rfl | hmem
  · exact Or.inl rfl
  · right
    obtain ⟨en, hen, rfl⟩ := List.mem_map.mp hmem
    exact (List.mem_filter.mp hen).2

theorem env_not_root_of_data (l : List Char) (hl : l ≠ []) :
    ¬ ((⟨(⟨l⟩ : String)⟩ : Env).isRoot = true) := by
  intro habs
  unfold Env.isRoot at habs
  rw [decide_eq_true_eq] at habs
  exact hl (congrArg String.data habs)

theorem walk_dest_view_subtree (e : Env) (c : String)
    (h : c = jS.envPathOf e ∨ isUnder (jS.envPathOf e) c = true) :
    jS.viewPathOf ⟨pyDrop c (jS.confP.length + 1)⟩ = jS.viewPathOf e ∨
    isUnder (jS.viewPathOf e)
      (jS.viewPathOf ⟨pyDrop c (jS.confP.length + 1)⟩) = true := by
  by_cases hr : e.isRoot = true
  · have hpe : jS.envPathOf e = jS.confP := by
      unfold Jones.envPathOf getPathByEnv
      rw [if_pos hr]
    have hve : jS.viewPathOf e = jS.viewP := by
      unfold Jones.viewPathOf getPathByEnv
      rw [if_pos hr]
    rcases h with rfl | hu
    · left
      rw [hpe, hve]
      rw [show pyDrop jS.confP (jS.confP.length + 1) = "" from by decide]
      rfl
    · rw [hpe] at hu
      unfold isUnder at hu
      rw [List.isPrefixOf_iff_prefix] at hu
      obtain ⟨t, ht⟩ := hu
      have hname : pyDrop c (jS.confP.length + 1) = ⟨t⟩ := by
        unfold pyDrop
        rw [← ht]
        rw [show jS.confP.length + 1 = ((jS.confP ++ "/").data).length from by decide]
        rw [List.drop_left]
      rw [hname, hve]
      by_cases ht0 : t = []
      · left
        subst ht0
        rfl
      · right
        have hdest : jS.viewPathOf ⟨(⟨t⟩ : String)⟩ = jS.viewP ++ "/" ++ ⟨t⟩ := by
          unfold Jones.viewPathOf getPathByEnv
          rw [if_neg (env_not_root_of_data t ht0)]
        rw [hdest]
        apply isUnder_of_data _ _ t
        rw [String.data_append, String.data_append]
  · have hpe : jS.envPathOf e = jS.confP ++ "/" ++ e.name := by
      unfold Jones.envPathOf getPathByEnv
      rw [if_neg hr]
    have hve : jS.viewPathOf e = jS.viewP ++ "/" ++ e.name := by
      unfold Jones.viewPathOf getPathByEnv
      rw [if_neg hr]
    have hnz : e.name.data ≠ [] := by
      intro habs
      exact absurd (by
        unfold Env.isRoot
        rw [decide_eq_true_eq]
        exact (congrArg String.mk habs : e.name = "")) hr
    rcases h with rfl | hu
    · left
      rw [hpe, hve]
      have hname : pyDrop (jS.confP ++ "/" ++ e.name) (jS.confP.length + 1) =
          e.name := by
        unfold pyDrop
        rw [show (jS.confP ++ "/" ++ e.name).data =
            ((jS.confP ++ "/").data) ++ e.name.data from by
          rw [String.data_append]]
        rw [show jS.confP.length + 1 = ((jS.confP ++ "/").data).length from by decide]
        rw [List.drop_left]
      rw [hname]
      unfold Jones.viewPathOf getPathByEnv
      rw [if_neg (env_not_root_of_data e.name.data hnz)]
    · rw [hpe] at hu
      unfold isUnder at hu
      rw [List.isPrefixOf_iff_prefix] at hu
      obtain ⟨t, ht⟩ := hu
      have hname : pyDrop c (jS.confP.length + 1) =
          ⟨e.name.data ++ '/' :: t⟩ := by
        unfold pyDrop
        rw [← ht]
        have hform : ((jS.confP ++ "/" ++ e.name) ++ "/").data ++ t =
            ((jS.confP ++ "/").data) ++ (e.name.data ++ '/' :: t) := by
          simp only [String.data_append, List.append_assoc]
          rfl
        rw [hform]
        rw [show jS.confP.length + 1 = ((jS.confP ++ "/").data).length from by decide]
        rw [List.drop_left]
      rw [hname, hve]
      right
      have hne : e.name.data ++ '/' :: t ≠ [] := by
        intro habs
        exact hnz (List.append_eq_nil.mp habs).1
      have hdest : jS.viewPathOf ⟨(⟨e.name.data ++ '/' :: t⟩ : String)⟩ =
          jS.viewP ++ "/" ++ ⟨e.name.data ++ '/' :: t⟩ := by
        unfold Jones.viewPathOf getPathByEnv
        rw [if_neg (env_not_root_of_data _ hne)]
      rw [hdest]
      apply isUnder_of_data _ _ t
      simp only [String.data_append, List.append_assoc]
      rfl

/-! ## Claim C2 -/

/-- C2: a successful `set_config(E, conf, version)` recomputes and
writes the view of `E` and of every environment enumerated by walking
the conf subtree rooted at `E` (each view holds the flatten-from-root
result over the post-write store), while every store node outside `E`'s
conf subtree and `E`'s view subtree keeps exactly its old value and
version.  The structural hypothesis `hanc` states that the view-path
ancestors of every walked environment already exist — the invariant the
service's own lifecycle maintains. -/
theorem C2_cascade_updates_and_frame (e : Env) (conf : JValue) (v : Nat)
    (s s' : Store)
    (hok : setConfig jS e conf v s = (.ok (), s'))
    (hanc : ∀ c ∈ zkWalk s (jS.envPathOf e),
        ∀ q ∈ pathChain (jS.viewPathOf ⟨pyDrop c (jS.confP.length + 1)⟩),
        q ≠ jS.viewPathOf ⟨pyDrop c (jS.confP.length + 1)⟩ →
        (storeFind s q).isSome = true) :
    (∀ c ∈ zkWalk s (jS.envPathOf e), ∃ m ver,
        flattenFromRoot jS (zkSet s (jS.envPathOf e) conf (some v)).2
          ⟨pyDrop c (jS.confP.length + 1)⟩ = .ok m ∧
        storeFind s' (jS.viewPathOf ⟨pyDrop c (jS.confP.length + 1)⟩) =
          some ⟨some (.obj m), ver⟩) ∧
    (∀ p, ¬ p = jS.envPathOf e → ¬ isUnder (jS.envPathOf e) p = true →
        ¬ p = jS.viewPathOf e → ¬ isUnder (jS.viewPathOf e) p = true →
        storeFind s' p = storeFind s p) := by
  unfold setConfig at hok
  by_cases hm : isMapping conf
  case neg =>
    rw [if_pos hm] at hok
    cases hok
  case pos =>
    rw [if_neg (by simp [hm])] at hok
    rcases hzk : zkSet s (jS.envPathOf e) conf (some v) with ⟨r1, s1⟩
    rw [hzk] at hok
    cases r1 with
    | error err => dsimp only at hok; cases hok
    | ok u =>
      dsimp only at hok
      obtain ⟨n, hfn, hv, hs1⟩ := zkSet_ok_char s (jS.envPathOf e) conf v u s1 hzk
      subst hs1
      rw [zkWalk_map_replace] at hok
      have hanc1 : ∀ c ∈ zkWalk s (jS.envPathOf e),
          ∀ q ∈ pathChain (jS.viewPathOf ⟨pyDrop c (jS.confP.length + 1)⟩),
          q ≠ jS.viewPathOf ⟨pyDrop c (jS.confP.length + 1)⟩ →
          (storeFind (s.map (fun en => if en.1 = jS.envPathOf e
              then (jS.envPathOf e, ⟨some conf, n.version + 1⟩) else en)) q).isSome
            = true := by
        intro c hc q hq hqne
        rw [storeFind_overwrite]
        by_cases hqp : q = jS.envPathOf e
        · rw [if_pos hqp, hfn]
          rfl
        · rw [if_neg hqp]
          exact hanc c hc q hq hqne
      obtain ⟨hpos, hframe⟩ := cascade_loop
        (s.map (fun en => if en.1 = jS.envPathOf e
          then (jS.envPathOf e, ⟨some conf, n.version + 1⟩) else en))
        (zkWalk s (jS.envPathOf e))
        (s.map (fun en => if en.1 = jS.envPathOf e
          then (jS.envPathOf e, ⟨some conf, n.version + 1⟩) else en))
        s' (fun p _ => rfl) hanc1 hok
      constructor
      · intro c hc
        obtain ⟨m, ver, hflm, hfdm⟩ := hpos c hc
        refine ⟨m, ver, ?_, hfdm⟩
        exact hflm
      · intro p hp1 hp2 hp3 hp4
        have hnd : ∀ c ∈ zkWalk s (jS.envPathOf e),
            p ≠ jS.viewPathOf ⟨pyDrop c (jS.confP.length + 1)⟩ := by
          intro c hc habs
          rcases walk_dest_view_subtree e c
              (zkWalk_mem s (jS.envPathOf e) c hc) with hd | hd
          · exact hp3 (habs.trans hd)
          · rw [← habs] at hd
            exact hp4 hd
        rw [hframe p hnd, storeFind_overwrite, if_neg hp1]

/-- C2 witness: `set_config` at the root of the demo store; all three
views are rewritten with the recomputed overlays and every node outside
the conf and view subtrees is untouched. -/
theorem C2_witness :
    (∀ c ∈ zkWalk demoStore (jS.envPathOf Env.Root), ∃ m ver,
        flattenFromRoot jS
          (zkSet demoStore (jS.envPathOf Env.Root)
            (.obj [("timeout", JValue.num 99)]) (some 0)).2
          ⟨pyDrop c (jS.confP.length + 1)⟩ = .ok m ∧
        storeFind
          (setConfig jS Env.Root (.obj [("timeout", JValue.num 99)]) 0 demoStore).2
          (jS.viewPathOf ⟨pyDrop c (jS.confP.length + 1)⟩) =
          some ⟨some (.obj m), ver⟩) ∧
    (∀ p, ¬ p = jS.envPathOf Env.Root →
        ¬ isUnder (jS.envPathOf Env.Root) p = true →
        ¬ p = jS.viewPathOf Env.Root →
        ¬ isUnder (jS.viewPathOf Env.Root) p = true →
        storeFind
          (setConfig jS Env.Root (.obj [("timeout", JValue.num 99)]) 0 demoStore).2 p =
          storeFind demoStore p) :=
  C2_cascade_updates_and_frame Env.Root (.obj [("timeout", JValue.num 99)]) 0
    demoStore
    (setConfig jS Env.Root (.obj [("timeout", JValue.num 99)]) 0 demoStore).2
    (by rfl) (by decide)
